import Mathlib

/-!
Verification of the grounding-and-reconciliation engine of the
LLM_data_condensation repository.

The development shallowly embeds the Python code of the repository:

* dictionaries are association lists over string keys; assignment is the
  update-or-append operation of a Python dict; iteration enumerates the
  key/value pairs in insertion order;
* sample field values are either a raw-label string or a list of raw-label
  strings, which is the shape of the labels document the pipeline loads;
* grounding field values are term records, lists of term records, or the
  untouched raw values copied from the sample;
* fallible code is rendered in an Except monad; a raised Python exception
  is an error value, and for cache mutations the error carries the
  partially mutated state, matching the in-place mutation of the source.
-/

set_option maxHeartbeats 1000000

/-- Association-list dictionary with string keys, modelling a Python dict.
The list order is insertion order. -/
abbrev Dict (α : Type) := List (String × α)

/-- Lookup of a key in a dictionary: value of the first matching pair. -/
def dlookup {α : Type} : Dict α → String → Option α
  | [], _ => none
  | (k, v) :: rest, key => if k = key then some v else dlookup rest key

/-- Key-membership test of a Python dict. -/
def dmem {α : Type} (m : Dict α) (key : String) : Bool :=
  (dlookup m key).isSome

/-- Assignment of a Python dict: update the first pair holding the key in
place, or append a fresh pair at the end. -/
def dinsert {α : Type} : Dict α → String → α → Dict α
  | [], key, v => [(key, v)]
  | (k, w) :: rest, key, v =>
    if k = key then (k, v) :: rest else (k, w) :: dinsert rest key v

/-- JSON-representable literal stored inside a term record or as a cache
value: null, a string, or a list of strings. -/
inductive JLit : Type where
  | jnull : JLit
  | jstr (s : String) : JLit
  | jarr (xs : List String) : JLit
deriving DecidableEq, Repr

/-- A term record as returned by the lookup service: a Python dict with
fields such as uniq_id, label, description and synonyms. -/
abbrev TermD := Dict JLit

/-- A sample field value: a raw-label string (scalar field) or a list of
raw-label strings (list field). -/
inductive SVal : Type where
  | s (x : String) : SVal
  | l (xs : List String) : SVal
deriving DecidableEq, Repr

/-- A grounding field value: a term record, a list of term records, or a
raw value copied unchanged from the sample. -/
inductive GVal : Type where
  | gs (x : String) : GVal
  | gls (xs : List String) : GVal
  | gd (t : TermD) : GVal
  | gld (ts : List TermD) : GVal
deriving DecidableEq, Repr

/-- A verdict (mask) field value produced by the evaluation oracle: a
boolean for a scalar field, a list of booleans for a list field. -/
inductive MVal : Type where
  | mb (b : Bool) : MVal
  | mlb (bs : List Bool) : MVal
deriving DecidableEq, Repr

/-- The persistent three-way classification cache of classes.py: the
map_good, map_bad and legacy map attributes of class LabelMap. -/
structure LabelMap : Type where
  map_good : Dict JLit
  map_bad : Dict JLit
  map : Dict JLit
deriving DecidableEq, Repr

/-- LabelMap.add of classes.py: insert into the legacy map. -/
def LabelMap.add (lm : LabelMap) (label : String) (id : JLit) : LabelMap :=
  { lm with map := dinsert lm.map label id }

/-- LabelMap.add_good of classes.py: insert into map_good. -/
def LabelMap.add_good (lm : LabelMap) (label : String) (id : JLit) : LabelMap :=
  { lm with map_good := dinsert lm.map_good label id }

/-- LabelMap.add_bad of classes.py: insert into map_bad. -/
def LabelMap.add_bad (lm : LabelMap) (label : String) (id : JLit) : LabelMap :=
  { lm with map_bad := dinsert lm.map_bad label id }

/-- LabelMap.in_maps_evaluated of classes.py: the label is a key of
map_good or of map_bad. -/
def LabelMap.in_maps_evaluated (lm : LabelMap) (el : String) : Bool :=
  dmem lm.map_good el || dmem lm.map_bad el

/-- LabelMap.in_maps of classes.py: settled or a key of the legacy map. -/
def LabelMap.in_maps (lm : LabelMap) (el : String) : Bool :=
  lm.in_maps_evaluated el || dmem lm.map el

/-- Loop body of LabelMap.check_past: walk the sample fields carrying the
run flag, turning it on for every reachable raw label that is not a key of
map_good or map_bad; the scalar branch skips the identifier field. -/
def check_past_go (lm : LabelMap) : List (String × SVal) → Bool → Bool
  | [], run => run
  | (el, v) :: rest, run =>
    match v with
    | .l ts => check_past_go lm rest (run || ts.any (fun t => !(lm.in_maps_evaluated t)))
    | .s x =>
      if el = "id" then check_past_go lm rest run
      else check_past_go lm rest (run || !(lm.in_maps_evaluated x))

/-- LabelMap.check_past of classes.py: true when some reachable raw label
of the sample is settled in neither map_good nor map_bad. -/
def LabelMap.check_past (lm : LabelMap) (sample : Dict SVal) : Bool :=
  check_past_go lm sample false

/-- Reading grounded[el][i] followed by the uniq_id field, as performed by
the list branch of LabelMap.add_mapping; none models the exception Python
raises when the key is absent, the value is not a list of term records,
the index is out of range, or the record lacks a uniq_id key. -/
def termIdAt (g : Option GVal) (i : Nat) : Option JLit :=
  match g with
  | some (.gld ts) =>
    match ts[i]? with
    | some t => dlookup t "uniq_id"
    | none => none
  | _ => none

/-- Reading grounded[el] followed by the uniq_id field, as performed by
the scalar branch of LabelMap.add_mapping. -/
def termIdScalar (g : Option GVal) : Option JLit :=
  match g with
  | some (.gd t) => dlookup t "uniq_id"
  | _ => none

/-- Reading mask[el][i] in the list branch of LabelMap.add_mapping; none
models the exception raised when the key is absent, the value is not a
list, or the index is out of range. -/
def maskBoolAt (m : Option MVal) (i : Nat) : Option Bool :=
  match m with
  | some (.mlb bs) => bs[i]?
  | _ => none

/-- Python truthiness of a mask value: a boolean is itself, a list is
truthy when non-empty. -/
def truthyMVal : MVal → Bool
  | .mb b => b
  | .mlb bs => !bs.isEmpty

/-- Inner loop of the list branch of LabelMap.add_mapping: for each term
of the sample list at index i, read the aligned mask boolean and the
aligned grounded uniq_id, then insert into map_good or map_bad; an error
carries the cache state mutated so far, as in-place mutation would. -/
def add_mapping_list (el : String) (grounded : Dict GVal) (mask : Dict MVal) :
    LabelMap → List String → Nat → Except LabelMap LabelMap
  | lm, [], _ => .ok lm
  | lm, term :: rest, i =>
    match maskBoolAt (dlookup mask el) i with
    | none => .error lm
    | some b =>
      match termIdAt (dlookup grounded el) i with
      | none => .error lm
      | some id =>
        add_mapping_list el grounded mask
          (if b then lm.add_good term id else lm.add_bad term id) rest (i + 1)

/-- Scalar branch of LabelMap.add_mapping: skip the identifier and medium
fields, otherwise read the mask truthiness and the grounded uniq_id and
insert into map_good or map_bad accordingly. -/
def add_mapping_scalar (lm : LabelMap) (el : String) (x : String)
    (grounded : Dict GVal) (mask : Dict MVal) : Except LabelMap LabelMap :=
  if el = "id" ∨ el = "medium" then .ok lm
  else
    match dlookup mask el with
    | none => .error lm
    | some mv =>
      match termIdScalar (dlookup grounded el) with
      | none => .error lm
      | some id =>
        .ok (if truthyMVal mv then lm.add_good x id else lm.add_bad x id)

/-- Field loop of LabelMap.add_mapping over the sample dictionary. -/
def add_mapping_go (grounded : Dict GVal) (mask : Dict MVal) :
    LabelMap → List (String × SVal) → Except LabelMap LabelMap
  | lm, [] => .ok lm
  | lm, (el, v) :: rest =>
    match v with
    | .l terms =>
      match add_mapping_list el grounded mask lm terms 0 with
      | .ok lm2 => add_mapping_go grounded mask lm2 rest
      | .error lm2 => .error lm2
    | .s x =>
      match add_mapping_scalar lm el x grounded mask with
      | .ok lm2 => add_mapping_go grounded mask lm2 rest
      | .error lm2 => .error lm2

/-- LabelMap.add_mapping of classes.py: fold every field of the original
sample, recording each raw label into map_good or map_bad according to
the aligned verdict boolean. -/
def LabelMap.add_mapping (lm : LabelMap) (og : Dict SVal) (grounded : Dict GVal)
    (mask : Dict MVal) : Except LabelMap LabelMap :=
  add_mapping_go grounded mask lm og

/-- The cache state after a call to add_mapping, whether the call returned
normally or raised part-way: mutation is in place, so the partial state of
an interrupted call is the state the caller observes. -/
def resultLM : Except LabelMap LabelMap → LabelMap
  | .ok lm => lm
  | .error lm => lm

/-- The empty cache, as built by LabelMap with no path. -/
def emptyLM : LabelMap := ⟨[], [], []⟩

/-- JSON document value, as written and read by json.dump and json.load
for the three cache files. -/
inductive JsonV : Type where
  | null : JsonV
  | str (s : String) : JsonV
  | arr (xs : List JsonV) : JsonV
  | obj (fields : List (String × JsonV)) : JsonV

/-- Serialization of a cache value by json.dump. -/
def encodeLit : JLit → JsonV
  | .jnull => .null
  | .jstr s => .str s
  | .jarr xs => .arr (xs.map .str)

/-- Parse a JSON array of strings back into a list of strings. -/
def decodeStrList : List JsonV → Option (List String)
  | [] => some []
  | .str s :: rest =>
    match decodeStrList rest with
    | some xs => some (s :: xs)
    | none => none
  | _ => none

/-- Parse a JSON value back into a cache value. -/
def decodeLit : JsonV → Option JLit
  | .null => some .jnull
  | .str s => some (.jstr s)
  | .arr xs =>
    match decodeStrList xs with
    | some l => some (.jarr l)
    | none => none
  | .obj _ => none

/-- Serialization of one cache map by json.dump: a JSON object holding
the entries in insertion order. -/
def encodeMapDoc (m : Dict JLit) : JsonV :=
  .obj (m.map (fun p => (p.1, encodeLit p.2)))

/-- Parse the fields of a JSON object back into a cache map. -/
def decodeFields : List (String × JsonV) → Option (Dict JLit)
  | [] => some []
  | (k, v) :: rest =>
    match decodeLit v, decodeFields rest with
    | some l, some m => some ((k, l) :: m)
    | _, _ => none

/-- Parse a JSON document back into a cache map; anything but an object
fails. -/
def decodeMapDoc : JsonV → Option (Dict JLit)
  | .obj fs => decodeFields fs
  | _ => none

/-- The three JSON documents at a cache path: map_good.json, map_bad.json
and map.json. -/
structure Store : Type where
  good_doc : JsonV
  bad_doc : JsonV
  map_doc : JsonV

/-- LabelMap.save_map of classes.py: overwrite the three documents at the
path with the serialization of the three in-memory maps. -/
def LabelMap.save_map (lm : LabelMap) : Store :=
  ⟨encodeMapDoc lm.map_good, encodeMapDoc lm.map_bad, encodeMapDoc lm.map⟩

/-- Construction of a LabelMap from a path, as in the init method of
classes.py: load and parse the three documents; when the path is absent
or any document fails to load, fall back to three empty maps. -/
def loadLabelMap : Option Store → LabelMap
  | none => emptyLM
  | some st =>
    match decodeMapDoc st.good_doc, decodeMapDoc st.bad_doc, decodeMapDoc st.map_doc with
    | some g, some b, some m => ⟨g, b, m⟩
    | _, _, _ => emptyLM

/-- The unresolved-TermRef sentinel of MainMarineUpdated.py: a term record
whose four fields are all null. -/
def sentinelTerm : TermD :=
  [("uniq_id", JLit.jnull), ("label", JLit.jnull),
   ("description", JLit.jnull), ("synonyms", JLit.jnull)]

/-- Injection of a copied sample value into a grounding value, modelling
data.copy() at the start of ground_labels_with_api_call. -/
def svalToG : SVal → GVal
  | .s x => .gs x
  | .l xs => .gls xs

/-- Treatment loop of ground_labels_with_api_call in MainMarineUpdated.py:
per element, call the search service with MEDIUM confidence; a candidate
list yields the description of its first entry, no candidate yields the
sentinel, and an empty candidate list models the index error raised by
taking its first element. -/
def ground_treatments (search : String → String → Option (List String))
    (describe : String → TermD) : List String → Except Unit (List TermD)
  | [] => .ok []
  | t :: rest =>
    match search t "MEDIUM" with
    | some (u :: _) =>
      match ground_treatments search describe rest with
      | .ok ts => .ok (describe u :: ts)
      | .error e => .error e
    | some [] => .error ()
    | none =>
      match ground_treatments search describe rest with
      | .ok ts => .ok (sentinelTerm :: ts)
      | .error e => .error e

/-- Tissue block of ground_labels_with_api_call: when the copied data has
a scalar string tissue value, call the search service with HIGH
confidence and replace the value by the description of the first
candidate; the source subscripts the search result without a None check,
so no candidate, like an empty candidate list, raises instead of
substituting the sentinel. -/
def ground_tissue (search : String → String → Option (List String))
    (describe : String → TermD) (g0 : Dict GVal) : Except Unit (Dict GVal) :=
  match dlookup g0 "tissue" with
  | some (.gs term) =>
    match search term "HIGH" with
    | some (u :: _) => .ok (dinsert g0 "tissue" (.gd (describe u)))
    | some [] => .error ()
    | none => .error ()
  | _ => .ok g0

/-- Treatment block of ground_labels_with_api_call: when the treatment
value is a list of raw strings, replace it by the element-wise grounding;
a list of term records models the type error its elements would raise
inside the memoized search call, except for the empty list, which the
loop never enters. -/
def ground_treatment_field (search : String → String → Option (List String))
    (describe : String → TermD) (g : Dict GVal) : Except Unit (Dict GVal) :=
  match dlookup g "treatment" with
  | some (.gls terms) =>
    match ground_treatments search describe terms with
    | .ok ts => .ok (dinsert g "treatment" (.gld ts))
    | .error e => .error e
  | some (.gld ts) => if ts.isEmpty then .ok (dinsert g "treatment" (.gld [])) else .error ()
  | _ => .ok g

/-- ground_labels_with_api_call of MainMarineUpdated.py: copy the sample,
then run the tissue block and the treatment block in order, propagating
any raised exception. -/
def ground_labels_with_api_call (search : String → String → Option (List String))
    (describe : String → TermD) (data : Dict SVal) : Except Unit (Dict GVal) :=
  match ground_tissue search describe (data.map (fun p => (p.1, svalToG p.2))) with
  | .error e => .error e
  | .ok g => ground_treatment_field search describe g

/-- An element of the list returned by check_groundings: the grounding
dictionary, paired with the mask stored under its mask key when the
sample was evaluated in this run. -/
abbrev OutItem := Dict GVal × Option (Dict MVal)

/-- One iteration of the loop of check_groundings in MainMarineUpdated.py
over a (grounded, original) pair: when check_past reports an unsettled
label, query the oracle, append the grounding extended with the mask and
fold the verdict into the cache; otherwise append the grounding
unchanged. An exception from add_mapping propagates out of the loop. -/
def cg_step (oracle : Dict GVal → Dict SVal → Dict MVal)
    (st : List OutItem × LabelMap) (p : Dict GVal × Dict SVal) :
    Except Unit (List OutItem × LabelMap) :=
  if st.2.check_past p.2 then
    let mask := oracle p.1 p.2
    match st.2.add_mapping p.2 p.1 mask with
    | .ok lm2 => .ok (st.1 ++ [(p.1, some mask)], lm2)
    | .error _ => .error ()
  else .ok (st.1 ++ [(p.1, none)], st.2)

/-- The loop of check_groundings over the zipped pair list. -/
def cg_loop (oracle : Dict GVal → Dict SVal → Dict MVal) :
    List (Dict GVal × Dict SVal) → List OutItem → LabelMap →
    Except Unit (List OutItem × LabelMap)
  | [], acc, lm => .ok (acc, lm)
  | p :: rest, acc, lm =>
    match cg_step oracle (acc, lm) p with
    | .ok (acc2, lm2) => cg_loop oracle rest acc2 lm2
    | .error e => .error e

/-- check_groundings of MainMarineUpdated.py: start from the cache loaded
at the saves path, fold every zipped (grounded, original) pair through
the gate, then persist the cache. -/
def check_groundings (oracle : Dict GVal → Dict SVal → Dict MVal)
    (lm0 : LabelMap) (grounded_data : List (Dict GVal))
    (sample_data : List (Dict SVal)) : Except Unit (List OutItem × Store) :=
  match cg_loop oracle (List.zip grounded_data sample_data) [] lm0 with
  | .ok (acc, lm) => .ok (acc, lm.save_map)
  | .error e => .error e

/-- Append a reference to a defaultdict-of-list pool: extend the entry of
the key, or create the entry at the end in first-occurrence order. -/
def poolAdd {β : Type} : List (String × List β) → String → β → List (String × List β)
  | [], key, x => [(key, [x])]
  | (k, xs) :: rest, key, x =>
    if k = key then (k, xs ++ [x]) :: rest else (k, xs) :: poolAdd rest key x

/-- The occurrence list a pool associates with a key: the list of the
first entry holding the key, or empty. -/
def poolGet {β : Type} : List (String × List β) → String → List β
  | [], _ => []
  | (k, xs) :: rest, key => if k = key then xs else poolGet rest key

/-- Pooling pass for tissue in manual_correction: for each zipped pair,
take the tissue raw value of the original sample with the Unknown
default; a list value models the type error raised by using a list in a
dict membership test; when the value is a key of the bad map, append the
pair index to its pool. -/
def buildTissuePool (bad : Dict JLit) :
    List (Dict GVal × Dict SVal) → Nat → List (String × List Nat) →
    Except Unit (List (String × List Nat))
  | [], _, pool => .ok pool
  | (_, og) :: rest, i, pool =>
    match dlookup og "tissue" with
    | some (.l _) => .error ()
    | some (.s t) =>
      buildTissuePool bad rest (i + 1) (if dmem bad t then poolAdd pool t i else pool)
    | none =>
      buildTissuePool bad rest (i + 1)
        (if dmem bad "Unknown" then poolAdd pool "Unknown" i else pool)

/-- Characters of a string, each as a one-character string, modelling
Python iteration over a string. -/
def strChars (s : String) : List String :=
  s.data.map (fun c => String.singleton c)

/-- The sequence Python iterates when reading the treatment value of the
original sample with an empty-list default: the list itself, the
characters of a scalar string, or nothing. -/
def treatTerms : Option SVal → List String
  | some (.l ts) => ts
  | some (.s x) => strChars x
  | none => []

/-- Length of the sequence Python iterates for the treatment value of the
grounding: list elements, string characters, or dict keys. -/
def gTreatLen : Option GVal → Nat
  | some (.gld ts) => ts.length
  | some (.gls ss) => ss.length
  | some (.gs x) => x.data.length
  | some (.gd t) => t.length
  | none => 0

/-- The term side of zip_longest over the original treatment terms padded
to the grounding length: none marks a fill slot, whose use in a dict
membership test raises. -/
def zipLongestTerms (terms : List String) (glen : Nat) : List (Option String) :=
  (List.range (max terms.length glen)).map (fun j => terms[j]?)

/-- Pooling pass over one zipped treatment sequence of pair i: a term that
is a key of the bad map contributes the position (i, j) to its pool; a
fill slot raises. -/
def addTreatPool (bad : Dict JLit) (i : Nat) :
    List (Option String) → Nat → List (String × List (Nat × Nat)) →
    Except Unit (List (String × List (Nat × Nat)))
  | [], _, pool => .ok pool
  | some term :: rest, j, pool =>
    addTreatPool bad i rest (j + 1)
      (if dmem bad term then poolAdd pool term (i, j) else pool)
  | none :: _, _, _ => .error ()

/-- Pooling pass for treatment in manual_correction over all zipped
pairs. -/
def buildTreatPool (bad : Dict JLit) :
    List (Dict GVal × Dict SVal) → Nat → List (String × List (Nat × Nat)) →
    Except Unit (List (String × List (Nat × Nat)))
  | [], _, pool => .ok pool
  | (g, og) :: rest, i, pool =>
    match addTreatPool bad i
        (zipLongestTerms (treatTerms (dlookup og "treatment"))
          (gTreatLen (dlookup g "treatment"))) 0 pool with
    | .ok pool2 => buildTreatPool bad rest (i + 1) pool2
    | .error e => .error e

/-- Replace the element at an index of a list by applying a function,
leaving the list unchanged when the index is out of range; this models
mutation through a reference into the corrected batch. -/
def listSet {α : Type} : List α → Nat → (α → α) → List α
  | [], _, _ => []
  | x :: xs, 0, f => f x :: xs
  | x :: xs, n + 1, f => x :: listSet xs n f

/-- Tissue correction applied to one pooled grounding, as in the tissue
loop of manual_correction: a dict tissue value has its label field set in
place, any other present tissue value is replaced by a fresh dict holding
only the label, and a missing tissue key loses the write because the
mutation lands on the temporary default dict. -/
def tissueUpd (new : String) (g : Dict GVal) : Dict GVal :=
  match dlookup g "tissue" with
  | some (.gd t) => dinsert g "tissue" (.gd (dinsert t "label" (.jstr new)))
  | some _ => dinsert g "tissue" (.gd [("label", .jstr new)])
  | none => g

/-- Apply a tissue correction at one pooled pair index of the corrected
batch. -/
def applyTissueAt (data : List (Dict GVal)) (i : Nat) (new : String) :
    List (Dict GVal) :=
  listSet data i (tissueUpd new)

/-- Apply a tissue correction at every pooled index of one pool entry. -/
def applyTissueList : List Nat → String → List (Dict GVal) → List (Dict GVal)
  | [], _, data => data
  | i :: rest, new, data => applyTissueList rest new (applyTissueAt data i new)

/-- Treatment correction applied through one pooled reference (i, j): when
the treatment value of pair i is a list of term records and j is in
range, the label field of element j is set in place; every other case is
the write onto a fill dict, a string element, or a dict key, all of which
leave the corrected batch unchanged. -/
def treatUpd (j : Nat) (new : String) (g : Dict GVal) : Dict GVal :=
  match dlookup g "treatment" with
  | some (.gld ts) =>
    dinsert g "treatment" (.gld (listSet ts j (fun t => dinsert t "label" (.jstr new))))
  | _ => g

/-- Apply a treatment correction at one pooled position of the corrected
batch. -/
def applyTreatAt (data : List (Dict GVal)) (ij : Nat × Nat) (new : String) :
    List (Dict GVal) :=
  listSet data ij.1 (treatUpd ij.2 new)

/-- Apply a treatment correction at every pooled position of one pool
entry. -/
def applyTreatList : List (Nat × Nat) → String → List (Dict GVal) → List (Dict GVal)
  | [], _, data => data
  | ij :: rest, new, data => applyTreatList rest new (applyTreatAt data ij new)

/-- The strip method of a Python string: remove leading and trailing
whitespace. -/
def pyStrip (s : String) : String :=
  ⟨((s.data.dropWhile Char.isWhitespace).reverse.dropWhile Char.isWhitespace).reverse⟩

/-- The CorrectionSet artifact of one manual_correction session: the
tissue and treatment override dictionaries. -/
structure CorrectionSet : Type where
  tissue : Dict String
  treatment : Dict String
deriving DecidableEq, Repr

/-- Tissue elicitation loop of manual_correction: for each pool entry ask
the operator, strip the input, skip on empty, otherwise record the
override and apply it to every pooled occurrence. -/
def runTissueCorrections (op : String → String) :
    List (String × List Nat) → Dict String → List (Dict GVal) →
    Dict String × List (Dict GVal)
  | [], cs, data => (cs, data)
  | (orig, lst) :: rest, cs, data =>
    let new := pyStrip (op orig)
    if new = "" then runTissueCorrections op rest cs data
    else runTissueCorrections op rest (dinsert cs orig new) (applyTissueList lst new data)

/-- Treatment elicitation loop of manual_correction. -/
def runTreatCorrections (op : String → String) :
    List (String × List (Nat × Nat)) → Dict String → List (Dict GVal) →
    Dict String × List (Dict GVal)
  | [], cs, data => (cs, data)
  | (orig, lst) :: rest, cs, data =>
    let new := pyStrip (op orig)
    if new = "" then runTreatCorrections op rest cs data
    else runTreatCorrections op rest (dinsert cs orig new) (applyTreatList lst new data)

/-- manual_correction of MainMarineUpdated.py: pool every occurrence of a
raw label keyed in map_bad across the zipped batch, short-circuit when
nothing is flagged, otherwise elicit one corrected label per pooled key
from the operator and apply it to every pooled occurrence of a deep copy
of the grounding batch; returns the CorrectionSet and the corrected
copy. -/
def manual_correction (lm : LabelMap) (op : String → String)
    (grounded_data : List (Dict GVal)) (sample_data : List (Dict SVal)) :
    Except Unit (CorrectionSet × List (Dict GVal)) :=
  let pairs := List.zip grounded_data sample_data
  match buildTissuePool lm.map_bad pairs 0 [] with
  | .error e => .error e
  | .ok tpool =>
    match buildTreatPool lm.map_bad pairs 0 [] with
    | .error e => .error e
    | .ok trpool =>
      if tpool = [] ∧ trpool = [] then .ok (⟨[], []⟩, grounded_data)
      else
        let r1 := runTissueCorrections op tpool [] grounded_data
        let r2 := runTreatCorrections op trpool [] r1.2
        .ok (⟨r1.1, r2.1⟩, r2.2)

theorem dlookup_dinsert_self {α : Type} : ∀ (m : Dict α) (k : String) (v : α),
    dlookup (dinsert m k v) k = some v := by
  intro m k v
  induction m with
  | nil => simp [dinsert, dlookup]
  | cons p rest ih =>
    obtain ⟨k2, w⟩ := p
    by_cases h : k2 = k
    · simp [dinsert, h, dlookup]
    · simp [dinsert, h, dlookup, ih]

theorem dlookup_dinsert_ne {α : Type} : ∀ (m : Dict α) (k k2 : String) (v : α),
    k2 ≠ k → dlookup (dinsert m k v) k2 = dlookup m k2 := by
  intro m k k2 v hne
  have hkk2 : ¬k = k2 := fun h => hne h.symm
  induction m with
  | nil => simp [dinsert, dlookup, hkk2]
  | cons p rest ih =>
    obtain ⟨k3, w⟩ := p
    by_cases h : k3 = k
    · subst h
      simp [dinsert, dlookup, hkk2]
    · simp [dinsert, h, dlookup, ih]

theorem dmem_dinsert_of {α : Type} (m : Dict α) (k l : String) (v : α)
    (h : dmem m l = true) : dmem (dinsert m k v) l = true := by
  by_cases hlk : l = k
  · subst hlk
    simp [dmem, dlookup_dinsert_self]
  · simpa [dmem, dlookup_dinsert_ne m k l v hlk] using h

theorem dmem_dinsert_self {α : Type} (m : Dict α) (k : String) (v : α) :
    dmem (dinsert m k v) k = true := by
  simp [dmem, dlookup_dinsert_self]

theorem dmem_dinsert_inv {α : Type} (m : Dict α) (k l : String) (v : α)
    (h : dmem (dinsert m k v) l = true) : dmem m l = true ∨ l = k := by
  by_cases hlk : l = k
  · exact Or.inr hlk
  · exact Or.inl (by simpa [dmem, dlookup_dinsert_ne m k l v hlk] using h)

theorem settled_add_good_of (lm : LabelMap) (t : String) (id : JLit) (l : String)
    (h : lm.in_maps_evaluated l = true) : (lm.add_good t id).in_maps_evaluated l = true := by
  rcases Bool.or_eq_true_iff.mp h with h1 | h1
  · exact Bool.or_eq_true_iff.mpr (Or.inl (dmem_dinsert_of _ _ _ _ h1))
  · exact Bool.or_eq_true_iff.mpr (Or.inr h1)

theorem settled_add_bad_of (lm : LabelMap) (t : String) (id : JLit) (l : String)
    (h : lm.in_maps_evaluated l = true) : (lm.add_bad t id).in_maps_evaluated l = true := by
  rcases Bool.or_eq_true_iff.mp h with h1 | h1
  · exact Bool.or_eq_true_iff.mpr (Or.inl h1)
  · exact Bool.or_eq_true_iff.mpr (Or.inr (dmem_dinsert_of _ _ _ _ h1))

theorem settled_add_good_inv (lm : LabelMap) (t : String) (id : JLit) (l : String)
    (h : (lm.add_good t id).in_maps_evaluated l = true) :
    lm.in_maps_evaluated l = true ∨ l = t := by
  rcases Bool.or_eq_true_iff.mp h with h1 | h1
  · rcases dmem_dinsert_inv _ _ _ _ h1 with h2 | h2
    · exact Or.inl (Bool.or_eq_true_iff.mpr (Or.inl h2))
    · exact Or.inr h2
  · exact Or.inl (Bool.or_eq_true_iff.mpr (Or.inr h1))

theorem settled_add_bad_inv (lm : LabelMap) (t : String) (id : JLit) (l : String)
    (h : (lm.add_bad t id).in_maps_evaluated l = true) :
    lm.in_maps_evaluated l = true ∨ l = t := by
  rcases Bool.or_eq_true_iff.mp h with h1 | h1
  · exact Or.inl (Bool.or_eq_true_iff.mpr (Or.inl h1))
  · rcases dmem_dinsert_inv _ _ _ _ h1 with h2 | h2
    · exact Or.inl (Bool.or_eq_true_iff.mpr (Or.inr h2))
    · exact Or.inr h2

/-- A sample field whose walk by check_past turns the run flag on: a
non-identifier scalar whose label is unsettled, or a list holding an
unsettled element. -/
def cp_field (lm : LabelMap) : String × SVal → Bool
  | (el, .s x) => !(decide (el = "id")) && !(lm.in_maps_evaluated x)
  | (_, .l ts) => ts.any (fun t => !(lm.in_maps_evaluated t))

theorem check_past_go_eq (lm : LabelMap) : ∀ (l : List (String × SVal)) (run : Bool),
    check_past_go lm l run = (run || l.any (cp_field lm)) := by
  intro l
  induction l with
  | nil => intro run; simp [check_past_go]
  | cons p rest ih =>
    intro run
    obtain ⟨el, v⟩ := p
    match v with
    | .s x =>
      by_cases h : el = "id"
      · simp [check_past_go, h, ih, cp_field, List.any_cons]
      · simp [check_past_go, h, ih, cp_field, List.any_cons, Bool.or_assoc]
    | .l ts =>
      simp [check_past_go, ih, cp_field, List.any_cons, Bool.or_assoc]

theorem check_past_legacy_go (g b m m2 : Dict JLit) :
    ∀ (l : List (String × SVal)) (run : Bool),
      check_past_go ⟨g, b, m2⟩ l run = check_past_go ⟨g, b, m⟩ l run := by
  intro l
  induction l with
  | nil => intro run; rfl
  | cons p rest ih =>
    intro run
    obtain ⟨el, v⟩ := p
    match v with
    | .s x =>
      by_cases h : el = "id" <;> simp [check_past_go, h, ih, LabelMap.in_maps_evaluated]
    | .l ts =>
      simp [check_past_go, ih, LabelMap.in_maps_evaluated]

/-- C1: for every sample mapping field names to raw-label strings or lists
of raw-label strings, check_past returns true exactly when some raw label
of the sample, the value of a scalar field other than the identifier
field or any element of a list field, is a key of neither map_good nor
map_bad; and the legacy map has no influence, so legacy membership alone
never makes check_past return false. -/
theorem C1_check_past_settledness (lm : LabelMap) (sample : Dict SVal) :
    (lm.check_past sample = true ↔
      ∃ p ∈ sample,
        (∃ x, p.2 = SVal.s x ∧ p.1 ≠ "id" ∧
          (dmem lm.map_good x || dmem lm.map_bad x) = false) ∨
        (∃ ts t, p.2 = SVal.l ts ∧ t ∈ ts ∧
          (dmem lm.map_good t || dmem lm.map_bad t) = false)) ∧
    (∀ legacy : Dict JLit,
      LabelMap.check_past ⟨lm.map_good, lm.map_bad, legacy⟩ sample = lm.check_past sample) := by
  constructor
  · rw [LabelMap.check_past, check_past_go_eq]
    simp only [Bool.false_or, List.any_eq_true]
    constructor
    · rintro ⟨p, hp, hcp⟩
      refine ⟨p, hp, ?_⟩
      obtain ⟨el, v⟩ := p
      match v with
      | .s x =>
        simp only [cp_field, Bool.and_eq_true, Bool.not_eq_true', decide_eq_false_iff_not] at hcp
        exact Or.inl ⟨x, rfl, hcp.1, by simpa [LabelMap.in_maps_evaluated, Bool.not_eq_true'] using hcp.2⟩
      | .l ts =>
        simp only [cp_field, List.any_eq_true, Bool.not_eq_true'] at hcp
        obtain ⟨t, ht, hset⟩ := hcp
        exact Or.inr ⟨ts, t, rfl, ht, by simpa [LabelMap.in_maps_evaluated] using hset⟩
    · rintro ⟨p, hp, hcase⟩
      refine ⟨p, hp, ?_⟩
      obtain ⟨el, v⟩ := p
      rcases hcase with ⟨x, hx, hel, hset⟩ | ⟨ts, t, hts, ht, hset⟩
      · cases hx
        simp [cp_field, hel, LabelMap.in_maps_evaluated, hset]
      · cases hts
        simp only [cp_field, List.any_eq_true]
        exact ⟨t, ht, by simp [LabelMap.in_maps_evaluated, hset]⟩
  · intro legacy
    obtain ⟨g, b, m⟩ := lm
    exact check_past_legacy_go g b m legacy sample false

/-- C2: on the end-to-end sample with tissue leaf and treatments heat and
salt, where the grounding resolved leaf to PO:1, left heat unresolved at
the sentinel and resolved salt to CHEBI:2, recording the verdict true for
tissue and false, true for the treatments into an empty cache leaves
map_good holding leaf to PO:1 and salt to CHEBI:2 and map_bad holding
heat at the sentinel id, which is null. -/
theorem C2_record_end_to_end :
    emptyLM.add_mapping
      [("tissue", SVal.s "leaf"), ("treatment", SVal.l ["heat", "salt"])]
      [("tissue", GVal.gd [("uniq_id", JLit.jstr "PO:1"), ("label", JLit.jstr "leaf"),
          ("description", JLit.jnull), ("synonyms", JLit.jnull)]),
       ("treatment", GVal.gld [sentinelTerm,
          [("uniq_id", JLit.jstr "CHEBI:2"), ("label", JLit.jstr "salt stress"),
           ("description", JLit.jnull), ("synonyms", JLit.jnull)]])]
      [("tissue", MVal.mb true), ("treatment", MVal.mlb [false, true])] =
    .ok ⟨[("leaf", JLit.jstr "PO:1"), ("salt", JLit.jstr "CHEBI:2")],
         [("heat", JLit.jnull)], []⟩ := by
  rfl

/-- C9: add_good only writes map_good and add_bad only writes map_bad,
each leaving the other two maps untouched; in consequence a label
recorded through add_mapping with a true verdict in one call and a false
verdict in another ends up a key of map_good and of map_bad at the same
time, since neither call removes from the opposite map. -/
theorem C9_add_frame_and_double_membership (lm : LabelMap) (l id1 id2 : String) :
    ((lm.add_good l (JLit.jstr id1)).map_bad = lm.map_bad ∧
     (lm.add_good l (JLit.jstr id1)).map = lm.map) ∧
    ((lm.add_bad l (JLit.jstr id2)).map_good = lm.map_good ∧
     (lm.add_bad l (JLit.jstr id2)).map = lm.map) ∧
    (lm.add_mapping [("tissue", SVal.s l)]
        [("tissue", GVal.gd [("uniq_id", JLit.jstr id1)])] [("tissue", MVal.mb true)] =
      .ok (lm.add_good l (JLit.jstr id1))) ∧
    ((lm.add_good l (JLit.jstr id1)).add_mapping [("tissue", SVal.s l)]
        [("tissue", GVal.gd [("uniq_id", JLit.jstr id2)])] [("tissue", MVal.mb false)] =
      .ok ((lm.add_good l (JLit.jstr id1)).add_bad l (JLit.jstr id2))) ∧
    (dmem ((lm.add_good l (JLit.jstr id1)).add_bad l (JLit.jstr id2)).map_good l = true ∧
     dmem ((lm.add_good l (JLit.jstr id1)).add_bad l (JLit.jstr id2)).map_bad l = true) := by
  refine ⟨⟨rfl, rfl⟩, ⟨rfl, rfl⟩, rfl, rfl, ?_, ?_⟩
  · exact dmem_dinsert_self lm.map_good l (JLit.jstr id1)
  · exact dmem_dinsert_self (lm.add_good l (JLit.jstr id1)).map_bad l (JLit.jstr id2)

theorem settled_mono_list (el : String) (grounded : Dict GVal) (mask : Dict MVal)
    (l : String) : ∀ (terms : List String) (i : Nat) (lm : LabelMap),
    lm.in_maps_evaluated l = true →
    (resultLM (add_mapping_list el grounded mask lm terms i)).in_maps_evaluated l = true := by
  intro terms
  induction terms with
  | nil => intro i lm h; simpa [add_mapping_list, resultLM] using h
  | cons t rest ih =>
    intro i lm h
    rw [add_mapping_list]
    match maskBoolAt (dlookup mask el) i with
    | none => simpa [resultLM] using h
    | some b =>
      match termIdAt (dlookup grounded el) i with
      | none => simpa [resultLM] using h
      | some id =>
        match b with
        | true => exact ih (i + 1) _ (settled_add_good_of lm t id l h)
        | false => exact ih (i + 1) _ (settled_add_bad_of lm t id l h)

theorem settled_mono_scalar (lm : LabelMap) (el x : String) (grounded : Dict GVal)
    (mask : Dict MVal) (l : String) (h : lm.in_maps_evaluated l = true) :
    (resultLM (add_mapping_scalar lm el x grounded mask)).in_maps_evaluated l = true := by
  rw [add_mapping_scalar]
  by_cases hid : el = "id" ∨ el = "medium"
  · simpa [hid, resultLM] using h
  · simp only [hid, if_false]
    match dlookup mask el with
    | none => simpa [resultLM] using h
    | some mv =>
      match termIdScalar (dlookup grounded el) with
      | none => simpa [resultLM] using h
      | some id =>
        by_cases htr : truthyMVal mv = true
        · simpa [resultLM, htr] using settled_add_good_of lm x id l h
        · simpa [resultLM, htr] using settled_add_bad_of lm x id l h

theorem settled_mono_go (grounded : Dict GVal) (mask : Dict MVal) (l : String) :
    ∀ (og : List (String × SVal)) (lm : LabelMap),
    lm.in_maps_evaluated l = true →
    (resultLM (add_mapping_go grounded mask lm og)).in_maps_evaluated l = true := by
  intro og
  induction og with
  | nil => intro lm h; simpa [add_mapping_go, resultLM] using h
  | cons p rest ih =>
    intro lm h
    obtain ⟨el, v⟩ := p
    cases v with
    | l terms =>
      have h2 := settled_mono_list el grounded mask l terms 0 lm h
      rw [add_mapping_go]
      split
      next lm2 hres =>
        rw [hres] at h2
        exact ih lm2 (by simpa [resultLM] using h2)
      next lm2 hres =>
        rw [hres] at h2
        simpa [resultLM] using h2
    | s x =>
      have h2 := settled_mono_scalar lm el x grounded mask l h
      rw [add_mapping_go]
      split
      next lm2 hres =>
        rw [hres] at h2
        exact ih lm2 (by simpa [resultLM] using h2)
      next lm2 hres =>
        rw [hres] at h2
        simpa [resultLM] using h2

/-- C3: a label settled in map_good or map_bad stays settled across any
subsequent add_mapping call, whatever the sample, grounding and verdict,
and whether the call returns or raises part-way: record only inserts, so
settledness is never revoked, even though the stored id or the map
holding the label may change. -/
theorem C3_settledness_monotone (lm : LabelMap) (og : Dict SVal) (grounded : Dict GVal)
    (mask : Dict MVal) (l : String) (h : lm.in_maps_evaluated l = true) :
    (resultLM (lm.add_mapping og grounded mask)).in_maps_evaluated l = true :=
  settled_mono_go grounded mask l og lm h

/-- Witness for C3 at a concrete cache and call: the label x settled as
bad stays settled after a record call that settles other labels. -/
theorem C3_settledness_monotone_witness :
    (resultLM ((⟨[], [("x", JLit.jstr "1")], []⟩ : LabelMap).add_mapping
      [("treatment", SVal.l ["a"])]
      [("treatment", GVal.gld [[("uniq_id", JLit.jstr "T:9")]])]
      [("treatment", MVal.mlb [true])])).in_maps_evaluated "x" = true :=
  C3_settledness_monotone ⟨[], [("x", JLit.jstr "1")], []⟩
    [("treatment", SVal.l ["a"])]
    [("treatment", GVal.gld [[("uniq_id", JLit.jstr "T:9")]])]
    [("treatment", MVal.mlb [true])] "x" rfl


theorem settled_inv_list (el : String) (grounded : Dict GVal) (mask : Dict MVal)
    (l : String) : ∀ (terms : List String) (i : Nat) (lm : LabelMap),
    (resultLM (add_mapping_list el grounded mask lm terms i)).in_maps_evaluated l = true →
    lm.in_maps_evaluated l = true ∨ l ∈ terms := by
  intro terms
  induction terms with
  | nil => intro i lm h; exact Or.inl (by simpa [add_mapping_list, resultLM] using h)
  | cons t rest ih =>
    intro i lm h
    rw [add_mapping_list] at h
    match hmb : maskBoolAt (dlookup mask el) i with
    | none =>
      rw [hmb] at h
      exact Or.inl (by simpa [resultLM] using h)
    | some b =>
      rw [hmb] at h
      match hti : termIdAt (dlookup grounded el) i with
      | none =>
        rw [hti] at h
        exact Or.inl (by simpa [resultLM] using h)
      | some id =>
        rw [hti] at h
        rcases ih (i + 1) _ h with h2 | h2
        · by_cases hb : b = true
          · rw [hb, if_pos rfl] at h2
            rcases settled_add_good_inv lm t id l h2 with h3 | h3
            · exact Or.inl h3
            · exact Or.inr (by simp [h3])
          · rw [Bool.eq_false_iff.mpr hb] at h2
            simp only [Bool.false_eq_true, if_false] at h2
            rcases settled_add_bad_inv lm t id l h2 with h3 | h3
            · exact Or.inl h3
            · exact Or.inr (by simp [h3])
        · exact Or.inr (List.mem_cons_of_mem t h2)

theorem settled_inv_scalar (lm : LabelMap) (el x : String) (grounded : Dict GVal)
    (mask : Dict MVal) (l : String)
    (h : (resultLM (add_mapping_scalar lm el x grounded mask)).in_maps_evaluated l = true) :
    lm.in_maps_evaluated l = true ∨ (¬(el = "id" ∨ el = "medium") ∧ l = x) := by
  rw [add_mapping_scalar] at h
  by_cases hid : el = "id" ∨ el = "medium"
  · rw [if_pos hid] at h
    exact Or.inl (by simpa [resultLM] using h)
  · rw [if_neg hid] at h
    match hmv : dlookup mask el with
    | none =>
      rw [hmv] at h
      exact Or.inl (by simpa [resultLM] using h)
    | some mv =>
      rw [hmv] at h
      match hti : termIdScalar (dlookup grounded el) with
      | none =>
        rw [hti] at h
        exact Or.inl (by simpa [resultLM] using h)
      | some id =>
        rw [hti] at h
        by_cases htr : truthyMVal mv = true
        · have h4 : (lm.add_good x id).in_maps_evaluated l = true := by
            simpa [resultLM, htr] using h
          rcases settled_add_good_inv lm x id l h4 with h3 | h3
          · exact Or.inl h3
          · exact Or.inr ⟨hid, h3⟩
        · have h4 : (lm.add_bad x id).in_maps_evaluated l = true := by
            simpa [resultLM, htr] using h
          rcases settled_add_bad_inv lm x id l h4 with h3 | h3
          · exact Or.inl h3
          · exact Or.inr ⟨hid, h3⟩

/-- A raw label that some field of the sample can contribute to the cache
through add_mapping: an element of any list field, or the value of a
scalar field other than the identifier and medium fields. -/
def eligibleLabel (og : Dict SVal) (l : String) : Bool :=
  og.any (fun p =>
    match p with
    | (_, .l ts) => ts.any (fun t => decide (t = l))
    | (el, .s x) =>
      !(decide (el = "id")) && !(decide (el = "medium")) && decide (x = l))

theorem elig_cons_of_mem (el : String) (terms : List String) (rest : List (String × SVal))
    (l : String) (h : l ∈ terms) : eligibleLabel ((el, SVal.l terms) :: rest) l = true := by
  simp only [eligibleLabel, List.any_cons, Bool.or_eq_true]
  exact Or.inl (List.any_eq_true.mpr ⟨l, h, by simp⟩)

theorem elig_cons_of_scalar (el x : String) (rest : List (String × SVal)) (l : String)
    (hid : ¬(el = "id" ∨ el = "medium")) (hlx : l = x) :
    eligibleLabel ((el, SVal.s x) :: rest) l = true := by
  rw [not_or] at hid
  simp only [eligibleLabel, List.any_cons, Bool.or_eq_true]
  exact Or.inl (by simp [hid.1, hid.2, hlx])

theorem elig_cons_of_rest (p : String × SVal) (rest : List (String × SVal)) (l : String)
    (h : eligibleLabel rest l = true) : eligibleLabel (p :: rest) l = true := by
  simp only [eligibleLabel, List.any_cons, Bool.or_eq_true]
  exact Or.inr (by simpa [eligibleLabel] using h)

theorem settled_inv_go (grounded : Dict GVal) (mask : Dict MVal) (l : String) :
    ∀ (og : List (String × SVal)) (lm : LabelMap),
    (resultLM (add_mapping_go grounded mask lm og)).in_maps_evaluated l = true →
    lm.in_maps_evaluated l = true ∨ eligibleLabel og l = true := by
  intro og
  induction og with
  | nil => intro lm h; exact Or.inl (by simpa [add_mapping_go, resultLM] using h)
  | cons p rest ih =>
    intro lm h
    obtain ⟨el, v⟩ := p
    cases v with
    | l terms =>
      rw [add_mapping_go] at h
      have hfirst : (resultLM (add_mapping_list el grounded mask lm terms 0)).in_maps_evaluated l = true →
          lm.in_maps_evaluated l = true ∨ eligibleLabel ((el, SVal.l terms) :: rest) l = true := by
        intro h2
        rcases settled_inv_list el grounded mask l terms 0 lm h2 with h3 | h3
        · exact Or.inl h3
        · exact Or.inr (elig_cons_of_mem el terms rest l h3)
      match hres : add_mapping_list el grounded mask lm terms 0 with
      | .ok lm2 =>
        rw [hres] at h
        rcases ih lm2 h with h2 | h2
        · exact hfirst (by rw [hres]; simpa [resultLM] using h2)
        · exact Or.inr (elig_cons_of_rest _ rest l h2)
      | .error lm2 =>
        rw [hres] at h
        exact hfirst (by rw [hres]; simpa [resultLM] using h)
    | s x =>
      rw [add_mapping_go] at h
      have hfirst : (resultLM (add_mapping_scalar lm el x grounded mask)).in_maps_evaluated l = true →
          lm.in_maps_evaluated l = true ∨ eligibleLabel ((el, SVal.s x) :: rest) l = true := by
        intro h2
        rcases settled_inv_scalar lm el x grounded mask l h2 with h3 | h3
        · exact Or.inl h3
        · exact Or.inr (elig_cons_of_scalar el x rest l h3.1 h3.2)
      match hres : add_mapping_scalar lm el x grounded mask with
      | .ok lm2 =>
        rw [hres] at h
        rcases ih lm2 h with h2 | h2
        · exact hfirst (by rw [hres]; simpa [resultLM] using h2)
        · exact Or.inr (elig_cons_of_rest _ rest l h2)
      | .error lm2 =>
        rw [hres] at h
        exact hfirst (by rw [hres]; simpa [resultLM] using h)

/-- C10: for a sample holding a scalar field named medium, add_mapping
silently skips recording its label while check_past does not exclude the
medium field; so when that label is settled through no other field of the
sample, check_past still returns true immediately after add_mapping has
processed the sample, and the sample is re-evaluated on every run. -/
theorem C10_medium_skipped_but_checked (lm : LabelMap) (og : Dict SVal)
    (grounded : Dict GVal) (mask : Dict MVal) (L : String)
    (hmed : ("medium", SVal.s L) ∈ og)
    (hunsettled : lm.in_maps_evaluated L = false)
    (hnotelig : eligibleLabel og L = false) :
    (resultLM (lm.add_mapping og grounded mask)).in_maps_evaluated L = false ∧
    (resultLM (lm.add_mapping og grounded mask)).check_past og = true := by
  have hns : (resultLM (lm.add_mapping og grounded mask)).in_maps_evaluated L = false := by
    by_contra hc
    rw [Bool.not_eq_false] at hc
    rcases settled_inv_go grounded mask L og lm hc with h2 | h2
    · rw [hunsettled] at h2
      exact Bool.false_ne_true h2
    · rw [hnotelig] at h2
      exact Bool.false_ne_true h2
  refine ⟨hns, ?_⟩
  rw [LabelMap.check_past, check_past_go_eq]
  simp only [Bool.false_or, List.any_eq_true]
  refine ⟨("medium", SVal.s L), hmed, ?_⟩
  simp only [cp_field, hns, LabelMap.in_maps_evaluated] at hns ⊢
  simp [cp_field, hns]

/-- Witness for C10 at a concrete run: the medium label M of the sample
is recorded by no field of a complete verdict, and the sample still needs
evaluation immediately afterwards. -/
theorem C10_medium_skipped_but_checked_witness :
    (resultLM (emptyLM.add_mapping
        [("medium", SVal.s "M"), ("tissue", SVal.s "T")]
        [("tissue", GVal.gd [("uniq_id", JLit.jstr "X:1")])]
        [("medium", MVal.mb true), ("tissue", MVal.mb true)])).in_maps_evaluated "M" = false ∧
    (resultLM (emptyLM.add_mapping
        [("medium", SVal.s "M"), ("tissue", SVal.s "T")]
        [("tissue", GVal.gd [("uniq_id", JLit.jstr "X:1")])]
        [("medium", MVal.mb true), ("tissue", MVal.mb true)])).check_past
      [("medium", SVal.s "M"), ("tissue", SVal.s "T")] = true :=
  C10_medium_skipped_but_checked emptyLM
    [("medium", SVal.s "M"), ("tissue", SVal.s "T")]
    [("tissue", GVal.gd [("uniq_id", JLit.jstr "X:1")])]
    [("medium", MVal.mb true), ("tissue", MVal.mb true)] "M"
    (by decide) rfl (by decide)

theorem decodeStrList_encode : ∀ xs : List String,
    decodeStrList (xs.map .str) = some xs := by
  intro xs
  induction xs with
  | nil => rfl
  | cons x rest ih => simp [decodeStrList, ih]

theorem decodeLit_encode : ∀ l : JLit, decodeLit (encodeLit l) = some l := by
  intro l
  match l with
  | .jnull => rfl
  | .jstr s => rfl
  | .jarr xs => simp [encodeLit, decodeLit, decodeStrList_encode]

theorem decodeFields_encode : ∀ m : Dict JLit,
    decodeFields (m.map (fun p => (p.1, encodeLit p.2))) = some m := by
  intro m
  induction m with
  | nil => rfl
  | cons p rest ih =>
    obtain ⟨k, v⟩ := p
    simp [decodeFields, decodeLit_encode, ih]

theorem decodeMapDoc_encode : ∀ m : Dict JLit,
    decodeMapDoc (encodeMapDoc m) = some m := by
  intro m
  simp [decodeMapDoc, encodeMapDoc, decodeFields_encode]

/-- C5: persisting the three maps with save_map and constructing a fresh
LabelMap from the same path reproduces maps deeply equal to the
originals, for every cache state including the empty one, whose three
documents parse back as valid empty maps; and persisting again after the
reload overwrites the store with the same documents, so repeated saves
are idempotent. -/
theorem C5_cache_round_trip (lm : LabelMap) :
    loadLabelMap (some lm.save_map) = lm ∧
    (loadLabelMap (some lm.save_map)).save_map = lm.save_map := by
  have h : loadLabelMap (some lm.save_map) = lm := by
    simp [loadLabelMap, LabelMap.save_map, decodeMapDoc_encode]
  exact ⟨h, by rw [h]⟩

/-- C4: the claim that an unresolvable scalar tissue value degrades to the
unresolved sentinel without raising is contradicted by the code: the
tissue branch of ground_labels_with_api_call subscripts the search result
without the None check the treatment branch performs, so a sample whose
tissue has no candidate makes the call raise and abort instead of
substituting the sentinel. -/
theorem C4_tissue_none_raises :
    ground_labels_with_api_call (fun _ _ => none) (fun _ => sentinelTerm)
      [("tissue", SVal.s "leaf")] = .error () := by
  rfl

theorem dlookup_map_svalToG : ∀ (data : Dict SVal) (k : String),
    dlookup (data.map (fun p => (p.1, svalToG p.2))) k = (dlookup data k).map svalToG := by
  intro data k
  induction data with
  | nil => rfl
  | cons p rest ih =>
    obtain ⟨k2, v⟩ := p
    by_cases h : k2 = k <;> simp [dlookup, h, ih]

theorem ground_tissue_preserves_treatment (search : String → String → Option (List String))
    (describe : String → TermD) (g0 g : Dict GVal)
    (h : ground_tissue search describe g0 = .ok g) :
    dlookup g "treatment" = dlookup g0 "treatment" := by
  unfold ground_tissue at h
  split at h
  · split at h
    · cases h
      exact dlookup_dinsert_ne g0 "tissue" "treatment" _ (by decide)
    · exact Except.noConfusion h
    · exact Except.noConfusion h
  · cases h
    rfl

theorem ground_treatments_spec (search : String → String → Option (List String))
    (describe : String → TermD) : ∀ (terms : List String) (ts : List TermD),
    ground_treatments search describe terms = .ok ts →
    ts.length = terms.length ∧
    ∀ (i : Nat) (t : String), terms[i]? = some t →
      (search t "MEDIUM" = none → ts[i]? = some sentinelTerm) ∧
      (∀ u us, search t "MEDIUM" = some (u :: us) → ts[i]? = some (describe u)) := by
  intro terms
  induction terms with
  | nil =>
    intro ts h
    rw [ground_treatments] at h
    cases h
    exact ⟨rfl, fun i t hit => by simp at hit⟩
  | cons t0 rest ih =>
    intro ts h
    rw [ground_treatments] at h
    match hs : search t0 "MEDIUM" with
    | some (u :: us) =>
      rw [hs] at h
      match hr : ground_treatments search describe rest with
      | .ok ts2 =>
        rw [hr] at h
        cases h
        obtain ⟨hlen, hpt⟩ := ih ts2 hr
        refine ⟨by simp [hlen], ?_⟩
        intro i t hit
        match i with
        | 0 =>
          rw [List.getElem?_cons_zero] at hit
          injection hit with hit
          subst hit
          constructor
          · intro hn
            rw [hn] at hs
            exact Option.noConfusion hs
          · intro u2 us2 hsome
            rw [hs] at hsome
            injection hsome with hsome
            injection hsome with hsome1 hsome2
            subst hsome1
            simp
        | i2 + 1 =>
          simp only [List.getElem?_cons_succ] at hit ⊢
          exact hpt i2 t hit
      | .error e =>
        rw [hr] at h
        exact Except.noConfusion h
    | some [] =>
      rw [hs] at h
      exact Except.noConfusion h
    | none =>
      rw [hs] at h
      match hr : ground_treatments search describe rest with
      | .ok ts2 =>
        rw [hr] at h
        cases h
        obtain ⟨hlen, hpt⟩ := ih ts2 hr
        refine ⟨by simp [hlen], ?_⟩
        intro i t hit
        match i with
        | 0 =>
          rw [List.getElem?_cons_zero] at hit
          injection hit with hit
          subst hit
          constructor
          · intro _
            simp
          · intro u2 us2 hsome
            rw [hs] at hsome
            exact Option.noConfusion hsome
        | i2 + 1 =>
          simp only [List.getElem?_cons_succ] at hit ⊢
          exact hpt i2 t hit
      | .error e =>
        rw [hr] at h
        exact Except.noConfusion h

/-- C6: for every sample whose treatment field is a list of N raw labels,
any grounding that resolve returns has a treatment list of exactly N
elements, position i of the grounding corresponding to position i of the
sample: a position whose lookup found no candidate carries the unresolved
sentinel and a position whose lookup found a candidate carries the
description of the first candidate, so failures never shrink the list,
including at N equal to zero. -/
theorem C6_treatment_alignment (search : String → String → Option (List String))
    (describe : String → TermD) (data : Dict SVal) (terms : List String) (g : Dict GVal)
    (hdata : dlookup data "treatment" = some (SVal.l terms))
    (hok : ground_labels_with_api_call search describe data = .ok g) :
    ∃ ts : List TermD, dlookup g "treatment" = some (GVal.gld ts) ∧
      ts.length = terms.length ∧
      ∀ (i : Nat) (t : String), terms[i]? = some t →
        (search t "MEDIUM" = none → ts[i]? = some sentinelTerm) ∧
        (∀ u us, search t "MEDIUM" = some (u :: us) → ts[i]? = some (describe u)) := by
  unfold ground_labels_with_api_call at hok
  match hgt : ground_tissue search describe (data.map (fun p => (p.1, svalToG p.2))) with
  | .error e =>
    rw [hgt] at hok
    exact Except.noConfusion hok
  | .ok g1 =>
    rw [hgt] at hok
    have hok2 : ground_treatment_field search describe g1 = .ok g := hok
    have htr : dlookup g1 "treatment" = some (GVal.gls terms) := by
      rw [ground_tissue_preserves_treatment search describe _ g1 hgt,
        dlookup_map_svalToG, hdata]
      rfl
    unfold ground_treatment_field at hok2
    rw [htr] at hok2
    have hok3 : (match ground_treatments search describe terms with
        | .ok ts => Except.ok (dinsert g1 "treatment" (GVal.gld ts))
        | .error e => (Except.error e : Except Unit (Dict GVal))) = .ok g := hok2
    match hgts : ground_treatments search describe terms with
    | .ok ts =>
      rw [hgts] at hok3
      cases hok3
      obtain ⟨hlen, hpt⟩ := ground_treatments_spec search describe terms ts hgts
      exact ⟨ts, dlookup_dinsert_self g1 "treatment" (GVal.gld ts), hlen, hpt⟩
    | .error e =>
      rw [hgts] at hok3
      exact Except.noConfusion hok3

/-- Witness for C6 at a concrete batch: a two-element treatment list in
which heat finds no candidate and salt resolves to CHEBI:2 grounds to a
two-element list holding the sentinel and the salt description. -/
theorem C6_treatment_alignment_witness :
    ∃ ts : List TermD,
      dlookup [("id", GVal.gs "s1"),
        ("treatment", GVal.gld [sentinelTerm, [("uniq_id", JLit.jstr "CHEBI:2")]])]
        "treatment" = some (GVal.gld ts) ∧
      ts.length = (["heat", "salt"] : List String).length ∧
      ∀ (i : Nat) (t : String), (["heat", "salt"] : List String)[i]? = some t →
        ((fun t2 _ => if t2 = "salt" then some ["CHEBI:2"] else none : String → String → Option (List String)) t "MEDIUM" = none →
          ts[i]? = some sentinelTerm) ∧
        (∀ u us, (fun t2 _ => if t2 = "salt" then some ["CHEBI:2"] else none : String → String → Option (List String)) t "MEDIUM" = some (u :: us) →
          ts[i]? = some ((fun u2 => [("uniq_id", JLit.jstr u2)] : String → TermD) u)) :=
  C6_treatment_alignment
    (fun t2 _ => if t2 = "salt" then some ["CHEBI:2"] else none)
    (fun u2 => [("uniq_id", JLit.jstr u2)])
    [("id", SVal.s "s1"), ("treatment", SVal.l ["heat", "salt"])]
    ["heat", "salt"]
    [("id", GVal.gs "s1"),
     ("treatment", GVal.gld [sentinelTerm, [("uniq_id", JLit.jstr "CHEBI:2")]])]
    rfl rfl

/-- C7: when check_past reports every reachable label of a sample settled,
the evaluation loop of check_groundings appends the grounding unchanged,
with no mask attached, leaves the cache untouched and moves on; the
result is the same for every oracle, so no oracle call is made for that
pair. -/
theorem C7_settled_passthrough (oracle : Dict GVal → Dict SVal → Dict MVal)
    (acc : List OutItem) (lm : LabelMap) (grounded : Dict GVal) (og : Dict SVal)
    (h : lm.check_past og = false) :
    cg_step oracle (acc, lm) (grounded, og) = .ok (acc ++ [(grounded, none)], lm) ∧
    ∀ rest, cg_loop oracle ((grounded, og) :: rest) acc lm =
      cg_loop oracle rest (acc ++ [(grounded, none)]) lm := by
  constructor
  · simp [cg_step, h]
  · intro rest
    simp [cg_loop, cg_step, h]

/-- Witness for C7 at a concrete settled pair: a sample whose only label
is already in map_good passes through unchanged for a concrete oracle. -/
theorem C7_settled_passthrough_witness :
    cg_step (fun _ _ => [("tissue", MVal.mb false)])
      ([], ⟨[("leaf", JLit.jstr "PO:1")], [], []⟩)
      ([("tissue", GVal.gd [("uniq_id", JLit.jstr "PO:9")])], [("tissue", SVal.s "leaf")]) =
      .ok ([] ++ [([("tissue", GVal.gd [("uniq_id", JLit.jstr "PO:9")])], none)],
        ⟨[("leaf", JLit.jstr "PO:1")], [], []⟩) ∧
    ∀ rest, cg_loop (fun _ _ => [("tissue", MVal.mb false)])
      (([("tissue", GVal.gd [("uniq_id", JLit.jstr "PO:9")])], [("tissue", SVal.s "leaf")]) :: rest)
      [] ⟨[("leaf", JLit.jstr "PO:1")], [], []⟩ =
      cg_loop (fun _ _ => [("tissue", MVal.mb false)]) rest
        ([] ++ [([("tissue", GVal.gd [("uniq_id", JLit.jstr "PO:9")])], none)])
        ⟨[("leaf", JLit.jstr "PO:1")], [], []⟩ :=
  C7_settled_passthrough (fun _ _ => [("tissue", MVal.mb false)]) []
    ⟨[("leaf", JLit.jstr "PO:1")], [], []⟩
    [("tissue", GVal.gd [("uniq_id", JLit.jstr "PO:9")])]
    [("tissue", SVal.s "leaf")] rfl

theorem listSet_length {α : Type} : ∀ (xs : List α) (n : Nat) (f : α → α),
    (listSet xs n f).length = xs.length := by
  intro xs
  induction xs with
  | nil => intro n f; rfl
  | cons x rest ih =>
    intro n f
    match n with
    | 0 => rfl
    | n2 + 1 => simp [listSet, ih]

theorem listSet_get_ne {α : Type} : ∀ (xs : List α) (n : Nat) (f : α → α) (i : Nat),
    i ≠ n → (listSet xs n f)[i]? = xs[i]? := by
  intro xs
  induction xs with
  | nil => intro n f i _; rfl
  | cons x rest ih =>
    intro n f i hne
    match n, i with
    | 0, 0 => exact absurd rfl hne
    | 0, i2 + 1 => simp [listSet]
    | n2 + 1, 0 => simp [listSet]
    | n2 + 1, i2 + 1 =>
      simp only [listSet, List.getElem?_cons_succ]
      exact ih n2 f i2 (fun h => hne (by rw [h]))

theorem listSet_get_self {α : Type} : ∀ (xs : List α) (n : Nat) (f : α → α),
    (listSet xs n f)[n]? = (xs[n]?).map f := by
  intro xs
  induction xs with
  | nil => intro n f; rfl
  | cons x rest ih =>
    intro n f
    match n with
    | 0 => simp [listSet]
    | n2 + 1 =>
      simp only [listSet, List.getElem?_cons_succ]
      exact ih n2 f

theorem poolGet_poolAdd_self {β : Type} : ∀ (pool : List (String × List β)) (k : String) (x : β),
    poolGet (poolAdd pool k x) k = poolGet pool k ++ [x] := by
  intro pool k x
  induction pool with
  | nil => simp [poolAdd, poolGet]
  | cons e rest ih =>
    obtain ⟨k2, xs⟩ := e
    by_cases h : k2 = k
    · simp [poolAdd, h, poolGet]
    · simp [poolAdd, h, poolGet, ih]

theorem poolGet_poolAdd_ne {β : Type} : ∀ (pool : List (String × List β)) (k k2 : String) (x : β),
    k2 ≠ k → poolGet (poolAdd pool k x) k2 = poolGet pool k2 := by
  intro pool k k2 x hne
  have hkk2 : ¬k = k2 := fun h => hne h.symm
  induction pool with
  | nil => simp [poolAdd, poolGet, hkk2]
  | cons e rest ih =>
    obtain ⟨k3, xs⟩ := e
    by_cases h : k3 = k
    · subst h
      simp [poolAdd, poolGet, hkk2]
    · simp [poolAdd, h, poolGet, ih]

theorem mem_poolGet_poolAdd {β : Type} (pool : List (String × List β)) (k k2 : String)
    (x y : β) (h : y ∈ poolGet pool k2) : y ∈ poolGet (poolAdd pool k x) k2 := by
  by_cases hk : k2 = k
  · subst hk
    rw [poolGet_poolAdd_self]
    exact List.mem_append_left _ h
  · rw [poolGet_poolAdd_ne pool k k2 x hk]
    exact h

/-- Every occurrence held by some entry of a pool satisfies the given
relation between occurrences and pool keys. -/
def PoolSound {β : Type} (P : β → String → Prop) (pool : List (String × List β)) : Prop :=
  ∀ e ∈ pool, ∀ y ∈ e.2, P y e.1

theorem poolSound_nil {β : Type} (P : β → String → Prop) : PoolSound P [] := by
  intro e he
  exact absurd he (List.not_mem_nil e)

theorem poolSound_poolAdd {β : Type} (P : β → String → Prop)
    (pool : List (String × List β)) (k : String) (x : β)
    (hp : PoolSound P pool) (hx : P x k) : PoolSound P (poolAdd pool k x) := by
  induction pool with
  | nil =>
    intro e he y hy
    simp only [poolAdd, List.mem_singleton] at he
    subst he
    simp only [List.mem_singleton] at hy
    subst hy
    exact hx
  | cons e0 rest ih =>
    obtain ⟨k2, xs⟩ := e0
    by_cases h : k2 = k
    · intro e he y hy
      simp only [poolAdd, h, if_true, List.mem_cons] at he
      rcases he with he | he
      · subst he
        simp only [List.mem_append, List.mem_singleton] at hy
        rcases hy with hy | hy
        · have h2 := hp (k2, xs) (List.mem_cons_self _ _) y hy
          rwa [h] at h2
        · subst hy
          exact hx
      · exact hp e (List.mem_cons_of_mem _ he) y hy
    · intro e he y hy
      simp only [poolAdd, h, if_false, List.mem_cons] at he
      rcases he with he | he
      · subst he
        exact hp (k2, xs) (List.mem_cons_self _ _) y hy
      · exact ih (fun e2 he2 => hp e2 (List.mem_cons_of_mem _ he2)) e he y hy

theorem mem_poolGet_sound {β : Type} (P : β → String → Prop) :
    ∀ (pool : List (String × List β)) (k : String) (y : β),
    PoolSound P pool → y ∈ poolGet pool k → P y k := by
  intro pool
  induction pool with
  | nil =>
    intro k y _ hy
    exact absurd hy (List.not_mem_nil y)
  | cons e rest ih =>
    intro k y hp hy
    obtain ⟨k2, xs⟩ := e
    by_cases h : k2 = k
    · subst h
      rw [poolGet, if_pos rfl] at hy
      exact hp (k2, xs) (List.mem_cons_self _ _) y hy
    · rw [poolGet, if_neg h] at hy
      exact ih k y (fun e2 he2 => hp e2 (List.mem_cons_of_mem _ he2)) hy

theorem zip_get_of_get {α β : Type} : ∀ (as : List α) (bs : List β) (i : Nat) (a : α) (b : β),
    as[i]? = some a → bs[i]? = some b → (List.zip as bs)[i]? = some (a, b) := by
  intro as
  induction as with
  | nil => intro bs i a b ha _; simp at ha
  | cons a0 arest ih =>
    intro bs i a b ha hb
    match bs with
    | [] => simp at hb
    | b0 :: brest =>
      match i with
      | 0 =>
        simp only [List.getElem?_cons_zero, Option.some.injEq] at ha hb
        subst ha
        subst hb
        simp [List.zip_cons_cons]
      | i2 + 1 =>
        simp only [List.getElem?_cons_succ] at ha hb
        simp only [List.zip_cons_cons, List.getElem?_cons_succ]
        exact ih brest i2 a b ha hb

theorem zip_get_inv {α β : Type} : ∀ (as : List α) (bs : List β) (i : Nat) (a : α) (b : β),
    (List.zip as bs)[i]? = some (a, b) → as[i]? = some a ∧ bs[i]? = some b := by
  intro as
  induction as with
  | nil => intro bs i a b h; simp [List.zip] at h
  | cons a0 arest ih =>
    intro bs i a b h
    match bs with
    | [] => simp [List.zip] at h
    | b0 :: brest =>
      match i with
      | 0 =>
        simp only [List.zip_cons_cons, List.getElem?_cons_zero, Option.some.injEq] at h
        cases h
        exact ⟨by simp, by simp⟩
      | i2 + 1 =>
        simp only [List.zip_cons_cons, List.getElem?_cons_succ] at h ⊢
        exact ih brest i2 a b h

theorem zipLongestTerms_get (terms : List String) (glen : Nat) (j : Nat)
    (h : j < terms.length) : (zipLongestTerms terms glen)[j]? = some (terms[j]?) := by
  have hj : j < max terms.length glen := lt_of_lt_of_le h (le_max_left _ _)
  simp [zipLongestTerms, List.getElem?_map, List.getElem?_range hj]

theorem zipLongestTerms_get_inv (terms : List String) (glen : Nat) (j : Nat)
    (v : Option String) (h : (zipLongestTerms terms glen)[j]? = some v) :
    terms[j]? = v := by
  by_cases hj : j < max terms.length glen
  · rw [zipLongestTerms, List.getElem?_map, List.getElem?_range hj] at h
    exact Option.some_inj.mp h
  · rw [zipLongestTerms, List.getElem?_map] at h
    rw [List.getElem?_eq_none (by simpa [zipLongestTerms] using le_of_not_lt hj)] at h
    exact Option.noConfusion h

/-- The pool key manual_correction derives from the tissue value of one
original sample: the scalar string itself, the Unknown default when the
field is absent, and no key when the value is a list, whose membership
test raises. -/
def tkey (og : Dict SVal) : Option String :=
  match dlookup og "tissue" with
  | some (.s t) => some t
  | none => some "Unknown"
  | some (.l _) => none

/-- The tissue value of the pair at one index of a grounded batch. -/
def tissueOf (cd : List (Dict GVal)) (i : Nat) : Option GVal :=
  match cd[i]? with
  | some g => dlookup g "tissue"
  | none => none

/-- The treatment value of the pair at one index of a grounded batch. -/
def treatOf (cd : List (Dict GVal)) (i : Nat) : Option GVal :=
  match cd[i]? with
  | some g => dlookup g "treatment"
  | none => none

/-- The grounding at index i carries a tissue term record whose label
field is the given string. -/
def hasTissueLabel (cd : List (Dict GVal)) (i : Nat) (y : String) : Bool :=
  match tissueOf cd i with
  | some (.gd t) => decide (dlookup t "label" = some (.jstr y))
  | _ => false

/-- The grounding at index i carries a term-record list treatment whose
element j has the given label. -/
def hasTreatLabel (cd : List (Dict GVal)) (i j : Nat) (y : String) : Bool :=
  match treatOf cd i with
  | some (.gld ts) =>
    match ts[j]? with
    | some t => decide (dlookup t "label" = some (.jstr y))
    | none => false
  | _ => false

/-- The grounding at index i has some tissue value. -/
def tissuePresent (cd : List (Dict GVal)) (i : Nat) : Bool :=
  (tissueOf cd i).isSome

/-- The grounding at index i has a term-record list treatment with an
element at position j. -/
def treatSlot (cd : List (Dict GVal)) (i j : Nat) : Bool :=
  match treatOf cd i with
  | some (.gld ts) => decide (j < ts.length)
  | _ => false

theorem tissueOf_congr (cd1 cd2 : List (Dict GVal)) (i : Nat)
    (h : cd1[i]? = cd2[i]?) : tissueOf cd1 i = tissueOf cd2 i := by
  simp [tissueOf, h]

theorem treatOf_congr (cd1 cd2 : List (Dict GVal)) (i : Nat)
    (h : cd1[i]? = cd2[i]?) : treatOf cd1 i = treatOf cd2 i := by
  simp [treatOf, h]

theorem tissueUpd_keeps_treatment (new : String) (g : Dict GVal) :
    dlookup (tissueUpd new g) "treatment" = dlookup g "treatment" := by
  unfold tissueUpd
  split
  · rw [dlookup_dinsert_ne g "tissue" "treatment" _ (by decide)]
  · rw [dlookup_dinsert_ne g "tissue" "treatment" _ (by decide)]
  · rfl

theorem treatUpd_keeps_tissue (j : Nat) (new : String) (g : Dict GVal) :
    dlookup (treatUpd j new g) "tissue" = dlookup g "tissue" := by
  unfold treatUpd
  split
  · rw [dlookup_dinsert_ne g "treatment" "tissue" _ (by decide)]
  · rfl

theorem tissueUpd_sets (new : String) (g : Dict GVal)
    (h : (dlookup g "tissue").isSome = true) :
    ∃ t : TermD, dlookup (tissueUpd new g) "tissue" = some (GVal.gd t) ∧
      dlookup t "label" = some (JLit.jstr new) := by
  unfold tissueUpd
  match hv : dlookup g "tissue" with
  | some (.gd t) =>
    exact ⟨dinsert t "label" (JLit.jstr new),
      dlookup_dinsert_self g "tissue" _, dlookup_dinsert_self t "label" _⟩
  | some (.gs x) =>
    exact ⟨[("label", JLit.jstr new)], dlookup_dinsert_self g "tissue" _, rfl⟩
  | some (.gls xs) =>
    exact ⟨[("label", JLit.jstr new)], dlookup_dinsert_self g "tissue" _, rfl⟩
  | some (.gld ts) =>
    exact ⟨[("label", JLit.jstr new)], dlookup_dinsert_self g "tissue" _, rfl⟩
  | none => rw [hv] at h; exact Bool.noConfusion h

theorem tissueUpd_keeps_present (new : String) (g : Dict GVal) :
    (dlookup (tissueUpd new g) "tissue").isSome = (dlookup g "tissue").isSome := by
  unfold tissueUpd
  match hv : dlookup g "tissue" with
  | some (.gd t) => rw [dlookup_dinsert_self]; rfl
  | some (.gs x) => rw [dlookup_dinsert_self]; rfl
  | some (.gls xs) => rw [dlookup_dinsert_self]; rfl
  | some (.gld ts) => rw [dlookup_dinsert_self]; rfl
  | none => simp [hv]


theorem hasTissueLabel_present (data : List (Dict GVal)) (i : Nat) (y : String)
    (h : hasTissueLabel data i y = true) : tissuePresent data i = true := by
  unfold hasTissueLabel at h
  unfold tissuePresent
  match hv : tissueOf data i with
  | some (.gd t) => rfl
  | some (.gs x) => rw [hv] at h; exact Bool.noConfusion h
  | some (.gls xs) => rw [hv] at h; exact Bool.noConfusion h
  | some (.gld ts) => rw [hv] at h; exact Bool.noConfusion h
  | none => rw [hv] at h; exact Bool.noConfusion h

theorem applyTissueAt_get_ne (data : List (Dict GVal)) (i : Nat) (new : String)
    (i2 : Nat) (h : i2 ≠ i) : (applyTissueAt data i new)[i2]? = data[i2]? :=
  listSet_get_ne data i (tissueUpd new) i2 h

theorem applyTissueAt_treatOf (data : List (Dict GVal)) (i : Nat) (new : String)
    (i2 : Nat) : treatOf (applyTissueAt data i new) i2 = treatOf data i2 := by
  by_cases h : i2 = i
  · subst h
    unfold treatOf
    rw [applyTissueAt, listSet_get_self]
    match data[i2]? with
    | some g => exact tissueUpd_keeps_treatment new g
    | none => rfl
  · exact treatOf_congr _ _ _ (applyTissueAt_get_ne data i new i2 h)

theorem applyTissueAt_present (data : List (Dict GVal)) (i : Nat) (new : String)
    (i2 : Nat) : tissuePresent (applyTissueAt data i new) i2 = tissuePresent data i2 := by
  by_cases h : i2 = i
  · subst h
    unfold tissuePresent tissueOf
    rw [applyTissueAt, listSet_get_self]
    match data[i2]? with
    | some g => exact tissueUpd_keeps_present new g
    | none => rfl
  · unfold tissuePresent
    rw [tissueOf_congr _ _ _ (applyTissueAt_get_ne data i new i2 h)]

theorem applyTissueAt_sets (data : List (Dict GVal)) (i : Nat) (new : String)
    (h : tissuePresent data i = true) :
    hasTissueLabel (applyTissueAt data i new) i new = true := by
  unfold tissuePresent tissueOf at h
  match hd : data[i]? with
  | none => rw [hd] at h; exact Bool.noConfusion h
  | some g =>
    rw [hd] at h
    obtain ⟨t, ht1, ht2⟩ := tissueUpd_sets new g h
    simp [hasTissueLabel, tissueOf, applyTissueAt, listSet_get_self, hd, ht1, ht2]

theorem applyTissueAt_keeps_label (data : List (Dict GVal)) (i i2 : Nat) (new : String)
    (h : hasTissueLabel data i new = true) :
    hasTissueLabel (applyTissueAt data i2 new) i new = true := by
  by_cases hi : i2 = i
  · subst hi
    exact applyTissueAt_sets data i2 new (hasTissueLabel_present data i2 new h)
  · unfold hasTissueLabel
    rw [tissueOf_congr _ _ _ (applyTissueAt_get_ne data i2 new i (fun h2 => hi h2.symm))]
    exact h

theorem applyTreatAt_get_ne (data : List (Dict GVal)) (i0 j0 : Nat) (new : String)
    (i2 : Nat) (h : i2 ≠ i0) : (applyTreatAt data (i0, j0) new)[i2]? = data[i2]? :=
  listSet_get_ne data i0 (treatUpd j0 new) i2 h

theorem applyTreatAt_tissueOf (data : List (Dict GVal)) (i0 j0 : Nat) (new : String)
    (i2 : Nat) : tissueOf (applyTreatAt data (i0, j0) new) i2 = tissueOf data i2 := by
  by_cases h : i2 = i0
  · subst h
    unfold tissueOf
    rw [applyTreatAt, listSet_get_self]
    match data[i2]? with
    | some g => exact treatUpd_keeps_tissue j0 new g
    | none => rfl
  · exact tissueOf_congr _ _ _ (applyTreatAt_get_ne data i0 j0 new i2 h)

theorem applyTreatAt_sets (data : List (Dict GVal)) (i0 j0 : Nat) (new : String)
    (h : treatSlot data i0 j0 = true) :
    hasTreatLabel (applyTreatAt data (i0, j0) new) i0 j0 new = true := by
  match hd : data[i0]? with
  | none => simp [treatSlot, treatOf, hd] at h
  | some g =>
    match hg : dlookup g "treatment" with
    | some (.gld ts) =>
      have hj : j0 < ts.length := by simpa [treatSlot, treatOf, hd, hg] using h
      match hts : ts[j0]? with
      | none =>
        rw [List.getElem?_eq_none_iff] at hts
        exact absurd hj (by omega)
      | some t =>
        simp [hasTreatLabel, treatOf, applyTreatAt, listSet_get_self, hd, treatUpd,
          hg, dlookup_dinsert_self, hts]
    | some (.gd t) => simp [treatSlot, treatOf, hd, hg] at h
    | some (.gs x) => simp [treatSlot, treatOf, hd, hg] at h
    | some (.gls xs) => simp [treatSlot, treatOf, hd, hg] at h
    | none => simp [treatSlot, treatOf, hd, hg] at h

theorem applyTreatAt_keeps_slot (data : List (Dict GVal)) (i0 j0 : Nat) (new : String)
    (i j : Nat) (h : treatSlot data i j = true) :
    treatSlot (applyTreatAt data (i0, j0) new) i j = true := by
  by_cases hi : i = i0
  · subst hi
    match hd : data[i]? with
    | none => simp [treatSlot, treatOf, hd] at h
    | some g =>
      match hg : dlookup g "treatment" with
      | some (.gld ts) =>
        have hj : j < ts.length := by simpa [treatSlot, treatOf, hd, hg] using h
        simp [treatSlot, treatOf, applyTreatAt, listSet_get_self, hd, treatUpd, hg,
          dlookup_dinsert_self, listSet_length, hj]
      | some (.gd t) => simp [treatSlot, treatOf, hd, hg] at h
      | some (.gs x) => simp [treatSlot, treatOf, hd, hg] at h
      | some (.gls xs) => simp [treatSlot, treatOf, hd, hg] at h
      | none => simp [treatSlot, treatOf, hd, hg] at h
  · unfold treatSlot
    rw [treatOf_congr _ _ _ (applyTreatAt_get_ne data i0 j0 new i hi)]
    exact h

theorem applyTreatAt_keeps_label (data : List (Dict GVal)) (i0 j0 : Nat) (new : String)
    (i j : Nat) (h : hasTreatLabel data i j new = true) :
    hasTreatLabel (applyTreatAt data (i0, j0) new) i j new = true := by
  by_cases hi : i = i0
  · subst hi
    match hd : data[i]? with
    | none => simp [hasTreatLabel, treatOf, hd] at h
    | some g =>
      match hg : dlookup g "treatment" with
      | some (.gld ts) =>
        by_cases hjj : j = j0
        · subst hjj
          match hts : ts[j]? with
          | none => simp [hasTreatLabel, treatOf, hd, hg, hts] at h
          | some t =>
            simp [hasTreatLabel, treatOf, applyTreatAt, listSet_get_self, hd, treatUpd,
              hg, dlookup_dinsert_self, hts]
        · simp only [hasTreatLabel, treatOf, applyTreatAt, listSet_get_self, hd,
            Option.map_some', treatUpd, hg, dlookup_dinsert_self,
            listSet_get_ne ts j0 (fun t => dinsert t "label" (JLit.jstr new)) j hjj]
          simpa [hasTreatLabel, treatOf, hd, hg] using h
      | some (.gd t) => simp [hasTreatLabel, treatOf, hd, hg] at h
      | some (.gs x) => simp [hasTreatLabel, treatOf, hd, hg] at h
      | some (.gls xs) => simp [hasTreatLabel, treatOf, hd, hg] at h
      | none => simp [hasTreatLabel, treatOf, hd, hg] at h
  · unfold hasTreatLabel
    rw [treatOf_congr _ _ _ (applyTreatAt_get_ne data i0 j0 new i hi)]
    exact h

theorem applyTreatAt_keeps_label_ne (data : List (Dict GVal)) (i0 j0 : Nat)
    (new2 : String) (i j : Nat) (y : String) (hne : ¬(i = i0 ∧ j = j0))
    (h : hasTreatLabel data i j y = true) :
    hasTreatLabel (applyTreatAt data (i0, j0) new2) i j y = true := by
  by_cases hi : i = i0
  · subst hi
    have hjj : ¬j = j0 := fun hj => hne ⟨rfl, hj⟩
    match hd : data[i]? with
    | none => simp [hasTreatLabel, treatOf, hd] at h
    | some g =>
      match hg : dlookup g "treatment" with
      | some (.gld ts) =>
        simp only [hasTreatLabel, treatOf, applyTreatAt, listSet_get_self, hd,
          Option.map_some', treatUpd, hg, dlookup_dinsert_self,
          listSet_get_ne ts j0 (fun t => dinsert t "label" (JLit.jstr new2)) j hjj]
        simpa [hasTreatLabel, treatOf, hd, hg] using h
      | some (.gd t) => simp [hasTreatLabel, treatOf, hd, hg] at h
      | some (.gs x) => simp [hasTreatLabel, treatOf, hd, hg] at h
      | some (.gls xs) => simp [hasTreatLabel, treatOf, hd, hg] at h
      | none => simp [hasTreatLabel, treatOf, hd, hg] at h
  · unfold hasTreatLabel
    rw [treatOf_congr _ _ _ (applyTreatAt_get_ne data i0 j0 new2 i hi)]
    exact h

theorem hasTissueLabel_congr (cd1 cd2 : List (Dict GVal)) (i : Nat) (y : String)
    (h : tissueOf cd1 i = tissueOf cd2 i) :
    hasTissueLabel cd1 i y = hasTissueLabel cd2 i y := by
  unfold hasTissueLabel
  rw [h]

theorem treatSlot_congr (cd1 cd2 : List (Dict GVal)) (i j : Nat)
    (h : treatOf cd1 i = treatOf cd2 i) : treatSlot cd1 i j = treatSlot cd2 i j := by
  unfold treatSlot
  rw [h]

theorem applyTissueList_untouched : ∀ (lst : List Nat) (new : String)
    (data : List (Dict GVal)) (i : Nat), i ∉ lst →
    (applyTissueList lst new data)[i]? = data[i]? := by
  intro lst
  induction lst with
  | nil => intro new data i _; rfl
  | cons i1 rest ih =>
    intro new data i hmem
    rw [applyTissueList]
    rw [ih new _ i (fun h2 => hmem (List.mem_cons_of_mem i1 h2))]
    exact applyTissueAt_get_ne data i1 new i (fun h2 => hmem (h2 ▸ List.mem_cons_self i1 rest))

theorem applyTissueList_keeps_label : ∀ (lst : List Nat) (new : String)
    (data : List (Dict GVal)) (i : Nat), hasTissueLabel data i new = true →
    hasTissueLabel (applyTissueList lst new data) i new = true := by
  intro lst
  induction lst with
  | nil => intro new data i h; exact h
  | cons i1 rest ih =>
    intro new data i h
    rw [applyTissueList]
    exact ih new _ i (applyTissueAt_keeps_label data i i1 new h)

theorem applyTissueList_keeps_present : ∀ (lst : List Nat) (new : String)
    (data : List (Dict GVal)) (i : Nat), tissuePresent data i = true →
    tissuePresent (applyTissueList lst new data) i = true := by
  intro lst
  induction lst with
  | nil => intro new data i h; exact h
  | cons i1 rest ih =>
    intro new data i h
    rw [applyTissueList]
    exact ih new _ i (by rw [applyTissueAt_present]; exact h)

theorem applyTissueList_sets : ∀ (lst : List Nat) (new : String)
    (data : List (Dict GVal)) (i : Nat), i ∈ lst → tissuePresent data i = true →
    hasTissueLabel (applyTissueList lst new data) i new = true := by
  intro lst
  induction lst with
  | nil => intro new data i hmem _; exact absurd hmem (List.not_mem_nil i)
  | cons i1 rest ih =>
    intro new data i hmem hpres
    rw [applyTissueList]
    by_cases hi : i = i1
    · subst hi
      exact applyTissueList_keeps_label rest new _ i (applyTissueAt_sets data i new hpres)
    · rcases List.mem_cons.mp hmem with h2 | h2
      · exact absurd h2 hi
      · exact ih new _ i h2 (by rw [applyTissueAt_present]; exact hpres)

theorem applyTissueList_treatOf : ∀ (lst : List Nat) (new : String)
    (data : List (Dict GVal)) (i : Nat),
    treatOf (applyTissueList lst new data) i = treatOf data i := by
  intro lst
  induction lst with
  | nil => intro new data i; rfl
  | cons i1 rest ih =>
    intro new data i
    rw [applyTissueList, ih, applyTissueAt_treatOf]

theorem applyTreatList_tissueOf : ∀ (lst : List (Nat × Nat)) (new : String)
    (data : List (Dict GVal)) (i : Nat),
    tissueOf (applyTreatList lst new data) i = tissueOf data i := by
  intro lst
  induction lst with
  | nil => intro new data i; rfl
  | cons ij rest ih =>
    intro new data i
    obtain ⟨i1, j1⟩ := ij
    rw [applyTreatList, ih, applyTreatAt_tissueOf]

theorem applyTreatList_keeps_slot : ∀ (lst : List (Nat × Nat)) (new : String)
    (data : List (Dict GVal)) (i j : Nat), treatSlot data i j = true →
    treatSlot (applyTreatList lst new data) i j = true := by
  intro lst
  induction lst with
  | nil => intro new data i j h; exact h
  | cons ij rest ih =>
    intro new data i j h
    obtain ⟨i1, j1⟩ := ij
    rw [applyTreatList]
    exact ih new _ i j (applyTreatAt_keeps_slot data i1 j1 new i j h)

theorem applyTreatList_keeps_label : ∀ (lst : List (Nat × Nat)) (new : String)
    (data : List (Dict GVal)) (i j : Nat), hasTreatLabel data i j new = true →
    hasTreatLabel (applyTreatList lst new data) i j new = true := by
  intro lst
  induction lst with
  | nil => intro new data i j h; exact h
  | cons ij rest ih =>
    intro new data i j h
    obtain ⟨i1, j1⟩ := ij
    rw [applyTreatList]
    exact ih new _ i j (applyTreatAt_keeps_label data i1 j1 new i j h)

theorem applyTreatList_keeps_label_of_ne : ∀ (lst : List (Nat × Nat)) (new2 : String)
    (data : List (Dict GVal)) (i j : Nat) (y : String),
    (∀ p ∈ lst, ¬(i = p.1 ∧ j = p.2)) → hasTreatLabel data i j y = true →
    hasTreatLabel (applyTreatList lst new2 data) i j y = true := by
  intro lst
  induction lst with
  | nil => intro new2 data i j y _ h; exact h
  | cons ij rest ih =>
    intro new2 data i j y hne h
    obtain ⟨i1, j1⟩ := ij
    rw [applyTreatList]
    refine ih new2 _ i j y (fun p hp => hne p (List.mem_cons_of_mem _ hp)) ?_
    exact applyTreatAt_keeps_label_ne data i1 j1 new2 i j y
      (hne (i1, j1) (List.mem_cons_self _ _)) h

theorem applyTreatList_sets : ∀ (lst : List (Nat × Nat)) (new : String)
    (data : List (Dict GVal)) (i j : Nat), (i, j) ∈ lst → treatSlot data i j = true →
    hasTreatLabel (applyTreatList lst new data) i j new = true := by
  intro lst
  induction lst with
  | nil => intro new data i j hmem _; exact absurd hmem (List.not_mem_nil _)
  | cons ij rest ih =>
    intro new data i j hmem hslot
    obtain ⟨i1, j1⟩ := ij
    rw [applyTreatList]
    by_cases hp : (i, j) = (i1, j1)
    · obtain ⟨h1, h2⟩ := Prod.mk.injEq i j i1 j1 ▸ hp
      subst h1
      subst h2
      exact applyTreatList_keeps_label rest new _ i j (applyTreatAt_sets data i j new hslot)
    · rcases List.mem_cons.mp hmem with h2 | h2
      · exact absurd h2 hp
      · exact ih new _ i j h2 (applyTreatAt_keeps_slot data i1 j1 new i j hslot)

theorem runTreat_keeps_tissueLabel (op : String → String) :
    ∀ (pool : List (String × List (Nat × Nat))) (cs : Dict String)
    (data : List (Dict GVal)) (i : Nat) (y : String),
    hasTissueLabel data i y = true →
    hasTissueLabel (runTreatCorrections op pool cs data).2 i y = true := by
  intro pool
  induction pool with
  | nil => intro cs data i y h; exact h
  | cons e rest ih =>
    intro cs data i y h
    obtain ⟨orig, lst⟩ := e
    rw [runTreatCorrections]
    by_cases hemp : pyStrip (op orig) = ""
    · rw [if_pos hemp]
      exact ih cs data i y h
    · rw [if_neg hemp]
      refine ih _ _ i y ?_
      rw [hasTissueLabel_congr _ data i y (applyTreatList_tissueOf lst _ data i)]
      exact h

theorem runTissue_sets (op : String → String) (X Y : String) (keyOf : Nat → Option String)
    (hY : pyStrip (op X) = Y) (hYne : Y ≠ "") :
    ∀ (pool : List (String × List Nat)) (cs : Dict String)
    (data : List (Dict GVal)) (i : Nat),
    PoolSound (fun i1 k => keyOf i1 = some k) pool →
    keyOf i = some X →
    ((i ∈ poolGet pool X ∧ tissuePresent data i = true) ∨ hasTissueLabel data i Y = true) →
    hasTissueLabel (runTissueCorrections op pool cs data).2 i Y = true := by
  intro pool
  induction pool with
  | nil =>
    intro cs data i _ _ hstate
    rcases hstate with ⟨hmem, _⟩ | hlab
    · exact absurd hmem (List.not_mem_nil i)
    · exact hlab
  | cons e rest ih =>
    intro cs data i hsound hkey hstate
    obtain ⟨K, lst⟩ := e
    have hsound_head : ∀ i1 ∈ lst, keyOf i1 = some K :=
      fun i1 h1 => hsound (K, lst) (List.mem_cons_self _ _) i1 h1
    have hsound_rest : PoolSound (fun i1 k => keyOf i1 = some k) rest :=
      fun e2 he2 => hsound e2 (List.mem_cons_of_mem _ he2)
    rw [runTissueCorrections]
    by_cases hKX : K = X
    · subst hKX
      rw [hY, if_neg hYne]
      refine ih (dinsert cs K Y) (applyTissueList lst Y data) i hsound_rest hkey (Or.inr ?_)
      rcases hstate with ⟨hmem, hpres⟩ | hlab
      · rw [poolGet, if_pos rfl] at hmem
        exact applyTissueList_sets lst Y data i hmem hpres
      · exact applyTissueList_keeps_label lst Y data i hlab
    · have hnotmem : i ∉ lst := by
        intro hmem
        have h2 := hsound_head i hmem
        rw [hkey] at h2
        exact hKX (Option.some_inj.mp h2.symm)
      have hmemrest : i ∈ poolGet ((K, lst) :: rest) X → i ∈ poolGet rest X := by
        intro h2
        rwa [poolGet, if_neg hKX] at h2
      by_cases hemp : pyStrip (op K) = ""
      · rw [if_pos hemp]
        refine ih cs data i hsound_rest hkey ?_
        rcases hstate with ⟨hmem, hpres⟩ | hlab
        · exact Or.inl ⟨hmemrest hmem, hpres⟩
        · exact Or.inr hlab
      · rw [if_neg hemp]
        refine ih _ (applyTissueList lst (pyStrip (op K)) data) i hsound_rest hkey ?_
        have huntouched := applyTissueList_untouched lst (pyStrip (op K)) data i hnotmem
        rcases hstate with ⟨hmem, hpres⟩ | hlab
        · refine Or.inl ⟨hmemrest hmem, ?_⟩
          unfold tissuePresent
          rw [tissueOf_congr _ data i huntouched]
          exact hpres
        · refine Or.inr ?_
          rw [hasTissueLabel_congr _ data i Y (tissueOf_congr _ data i huntouched)]
          exact hlab

theorem runTreat_sets (op : String → String) (X Y : String)
    (keyOf : Nat × Nat → Option String)
    (hY : pyStrip (op X) = Y) (hYne : Y ≠ "") :
    ∀ (pool : List (String × List (Nat × Nat))) (cs : Dict String)
    (data : List (Dict GVal)) (i j : Nat),
    PoolSound (fun p k => keyOf p = some k) pool →
    keyOf (i, j) = some X →
    (((i, j) ∈ poolGet pool X ∧ treatSlot data i j = true) ∨
      hasTreatLabel data i j Y = true) →
    hasTreatLabel (runTreatCorrections op pool cs data).2 i j Y = true := by
  intro pool
  induction pool with
  | nil =>
    intro cs data i j _ _ hstate
    rcases hstate with ⟨hmem, _⟩ | hlab
    · exact absurd hmem (List.not_mem_nil _)
    · exact hlab
  | cons e rest ih =>
    intro cs data i j hsound hkey hstate
    obtain ⟨K, lst⟩ := e
    have hsound_head : ∀ p ∈ lst, keyOf p = some K :=
      fun p h1 => hsound (K, lst) (List.mem_cons_self _ _) p h1
    have hsound_rest : PoolSound (fun p k => keyOf p = some k) rest :=
      fun e2 he2 => hsound e2 (List.mem_cons_of_mem _ he2)
    rw [runTreatCorrections]
    by_cases hKX : K = X
    · subst hKX
      rw [hY, if_neg hYne]
      refine ih (dinsert cs K Y) (applyTreatList lst Y data) i j hsound_rest hkey (Or.inr ?_)
      rcases hstate with ⟨hmem, hslot⟩ | hlab
      · rw [poolGet, if_pos rfl] at hmem
        exact applyTreatList_sets lst Y data i j hmem hslot
      · exact applyTreatList_keeps_label lst Y data i j hlab
    · have hne : ∀ p ∈ lst, ¬(i = p.1 ∧ j = p.2) := by
        intro p hp hcontra
        have h2 := hsound_head p hp
        obtain ⟨h3, h4⟩ := hcontra
        have h5 : p = (i, j) := by
          obtain ⟨p1, p2⟩ := p
          simp only at h3 h4
          rw [h3, h4]
        rw [h5, hkey] at h2
        exact hKX (Option.some_inj.mp h2.symm)
      have hmemrest : (i, j) ∈ poolGet ((K, lst) :: rest) X → (i, j) ∈ poolGet rest X := by
        intro h2
        rwa [poolGet, if_neg hKX] at h2
      by_cases hemp : pyStrip (op K) = ""
      · rw [if_pos hemp]
        refine ih cs data i j hsound_rest hkey ?_
        rcases hstate with ⟨hmem, hslot⟩ | hlab
        · exact Or.inl ⟨hmemrest hmem, hslot⟩
        · exact Or.inr hlab
      · rw [if_neg hemp]
        refine ih _ (applyTreatList lst (pyStrip (op K)) data) i j hsound_rest hkey ?_
        rcases hstate with ⟨hmem, hslot⟩ | hlab
        · exact Or.inl ⟨hmemrest hmem,
            applyTreatList_keeps_slot lst (pyStrip (op K)) data i j hslot⟩
        · exact Or.inr (applyTreatList_keeps_label_of_ne lst (pyStrip (op K)) data i j Y hne hlab)

theorem buildTissuePool_mono (bad : Dict JLit) :
    ∀ (ps : List (Dict GVal × Dict SVal)) (i0 : Nat)
    (pool0 pool : List (String × List Nat)),
    buildTissuePool bad ps i0 pool0 = .ok pool →
    ∀ (k : String) (y : Nat), y ∈ poolGet pool0 k → y ∈ poolGet pool k := by
  intro ps
  induction ps with
  | nil =>
    intro i0 pool0 pool h k y hy
    rw [buildTissuePool] at h
    cases h
    exact hy
  | cons p rest ih =>
    intro i0 pool0 pool h k y hy
    obtain ⟨g, og⟩ := p
    rw [buildTissuePool] at h
    match hv : dlookup og "tissue" with
    | some (.l xs) =>
      rw [hv] at h
      exact Except.noConfusion h
    | some (.s t0) =>
      rw [hv] at h
      refine ih (i0 + 1) _ pool h k y ?_
      by_cases hb : dmem bad t0 = true
      · rw [if_pos hb]
        exact mem_poolGet_poolAdd _ t0 k i0 y hy
      · rw [if_neg hb]
        exact hy
    | none =>
      rw [hv] at h
      refine ih (i0 + 1) _ pool h k y ?_
      by_cases hb : dmem bad "Unknown" = true
      · rw [if_pos hb]
        exact mem_poolGet_poolAdd _ "Unknown" k i0 y hy
      · rw [if_neg hb]
        exact hy

theorem buildTissuePool_complete (bad : Dict JLit) :
    ∀ (ps : List (Dict GVal × Dict SVal)) (i0 : Nat)
    (pool0 pool : List (String × List Nat)),
    buildTissuePool bad ps i0 pool0 = .ok pool →
    ∀ (k : Nat) (g : Dict GVal) (og : Dict SVal) (t : String),
    ps[k]? = some (g, og) → tkey og = some t → dmem bad t = true →
    (i0 + k) ∈ poolGet pool t := by
  intro ps
  induction ps with
  | nil =>
    intro i0 pool0 pool _ k g og t hk _ _
    simp at hk
  | cons p rest ih =>
    intro i0 pool0 pool h k g og t hk htk hb
    obtain ⟨g0, og0⟩ := p
    rw [buildTissuePool] at h
    match hv : dlookup og0 "tissue" with
    | some (.l xs) =>
      rw [hv] at h
      exact Except.noConfusion h
    | some (.s t0) =>
      rw [hv] at h
      match k with
      | 0 =>
        rw [List.getElem?_cons_zero] at hk
        injection hk with hk
        cases hk
        rw [tkey, hv] at htk
        have ht : t = t0 := (Option.some_inj.mp htk).symm
        subst ht
        have h2 : buildTissuePool bad rest (i0 + 1) (poolAdd pool0 t i0) = .ok pool := by
          have h3 : buildTissuePool bad rest (i0 + 1)
              (if dmem bad t = true then poolAdd pool0 t i0 else pool0) = .ok pool := h
          rwa [if_pos hb] at h3
        refine buildTissuePool_mono bad rest (i0 + 1) _ pool h2 t (i0 + 0) ?_
        rw [poolGet_poolAdd_self, Nat.add_zero]
        exact List.mem_append_right _ (List.mem_singleton.mpr rfl)
      | k2 + 1 =>
        rw [List.getElem?_cons_succ] at hk
        have h2 := ih (i0 + 1) _ pool h k2 g og t hk htk hb
        have harith : i0 + 1 + k2 = i0 + (k2 + 1) := by omega
        rwa [harith] at h2
    | none =>
      rw [hv] at h
      match k with
      | 0 =>
        rw [List.getElem?_cons_zero] at hk
        injection hk with hk
        cases hk
        rw [tkey, hv] at htk
        have ht : t = "Unknown" := (Option.some_inj.mp htk).symm
        subst ht
        have h2 : buildTissuePool bad rest (i0 + 1) (poolAdd pool0 "Unknown" i0) = .ok pool := by
          have h3 : buildTissuePool bad rest (i0 + 1)
              (if dmem bad "Unknown" = true then poolAdd pool0 "Unknown" i0 else pool0) = .ok pool := h
          rwa [if_pos hb] at h3
        refine buildTissuePool_mono bad rest (i0 + 1) _ pool h2 "Unknown" (i0 + 0) ?_
        rw [poolGet_poolAdd_self, Nat.add_zero]
        exact List.mem_append_right _ (List.mem_singleton.mpr rfl)
      | k2 + 1 =>
        rw [List.getElem?_cons_succ] at hk
        have h2 := ih (i0 + 1) _ pool h k2 g og t hk htk hb
        have harith : i0 + 1 + k2 = i0 + (k2 + 1) := by omega
        rwa [harith] at h2

theorem buildTissuePool_sound (bad : Dict JLit) (P : Nat → String → Prop) :
    ∀ (ps : List (Dict GVal × Dict SVal)) (i0 : Nat)
    (pool0 pool : List (String × List Nat)),
    buildTissuePool bad ps i0 pool0 = .ok pool →
    PoolSound P pool0 →
    (∀ (k : Nat) (g : Dict GVal) (og : Dict SVal) (t : String),
      ps[k]? = some (g, og) → tkey og = some t → P (i0 + k) t) →
    PoolSound P pool := by
  intro ps
  induction ps with
  | nil =>
    intro i0 pool0 pool h hp _
    rw [buildTissuePool] at h
    cases h
    exact hp
  | cons p rest ih =>
    intro i0 pool0 pool h hp hkey
    obtain ⟨g0, og0⟩ := p
    rw [buildTissuePool] at h
    have hrest : ∀ (k : Nat) (g : Dict GVal) (og : Dict SVal) (t : String),
        rest[k]? = some (g, og) → tkey og = some t → P (i0 + 1 + k) t := by
      intro k g og t hk htk
      have harith : i0 + 1 + k = i0 + (k + 1) := by omega
      rw [harith]
      exact hkey (k + 1) g og t (by rw [List.getElem?_cons_succ]; exact hk) htk
    match hv : dlookup og0 "tissue" with
    | some (.l xs) =>
      rw [hv] at h
      exact Except.noConfusion h
    | some (.s t0) =>
      rw [hv] at h
      refine ih (i0 + 1) _ pool h ?_ hrest
      by_cases hb : dmem bad t0 = true
      · rw [if_pos hb]
        refine poolSound_poolAdd P pool0 t0 i0 hp ?_
        have := hkey 0 g0 og0 t0 (by rw [List.getElem?_cons_zero]) (by rw [tkey, hv])
        rwa [Nat.add_zero] at this
      · rw [if_neg hb]
        exact hp
    | none =>
      rw [hv] at h
      refine ih (i0 + 1) _ pool h ?_ hrest
      by_cases hb : dmem bad "Unknown" = true
      · rw [if_pos hb]
        refine poolSound_poolAdd P pool0 "Unknown" i0 hp ?_
        have := hkey 0 g0 og0 "Unknown" (by rw [List.getElem?_cons_zero]) (by rw [tkey, hv])
        rwa [Nat.add_zero] at this
      · rw [if_neg hb]
        exact hp

theorem addTreatPool_mono (bad : Dict JLit) (i : Nat) :
    ∀ (slots : List (Option String)) (j0 : Nat)
    (pool0 pool : List (String × List (Nat × Nat))),
    addTreatPool bad i slots j0 pool0 = .ok pool →
    ∀ (k : String) (y : Nat × Nat), y ∈ poolGet pool0 k → y ∈ poolGet pool k := by
  intro slots
  induction slots with
  | nil =>
    intro j0 pool0 pool h k y hy
    rw [addTreatPool] at h
    cases h
    exact hy
  | cons slot rest ih =>
    intro j0 pool0 pool h k y hy
    match slot with
    | none =>
      rw [addTreatPool] at h
      exact Except.noConfusion h
    | some term =>
      rw [addTreatPool] at h
      refine ih (j0 + 1) _ pool h k y ?_
      by_cases hb : dmem bad term = true
      · rw [if_pos hb]
        exact mem_poolGet_poolAdd _ term k (i, j0) y hy
      · rw [if_neg hb]
        exact hy

theorem addTreatPool_complete (bad : Dict JLit) (i : Nat) :
    ∀ (slots : List (Option String)) (j0 : Nat)
    (pool0 pool : List (String × List (Nat × Nat))),
    addTreatPool bad i slots j0 pool0 = .ok pool →
    ∀ (jj : Nat) (t : String), slots[jj]? = some (some t) → dmem bad t = true →
    (i, j0 + jj) ∈ poolGet pool t := by
  intro slots
  induction slots with
  | nil =>
    intro j0 pool0 pool _ jj t hjj _
    simp at hjj
  | cons slot rest ih =>
    intro j0 pool0 pool h jj t hjj hb
    match slot with
    | none =>
      rw [addTreatPool] at h
      exact Except.noConfusion h
    | some term =>
      rw [addTreatPool] at h
      match jj with
      | 0 =>
        rw [List.getElem?_cons_zero] at hjj
        injection hjj with hjj
        have ht : t = term := (Option.some_inj.mp hjj).symm
        subst ht
        have h2 : addTreatPool bad i rest (j0 + 1) (poolAdd pool0 t (i, j0)) = .ok pool := by
          have h3 : addTreatPool bad i rest (j0 + 1)
              (if dmem bad t = true then poolAdd pool0 t (i, j0) else pool0) = .ok pool := h
          rwa [if_pos hb] at h3
        refine addTreatPool_mono bad i rest (j0 + 1) _ pool h2 t (i, j0 + 0) ?_
        rw [poolGet_poolAdd_self, Nat.add_zero]
        exact List.mem_append_right _ (List.mem_singleton.mpr rfl)
      | jj2 + 1 =>
        rw [List.getElem?_cons_succ] at hjj
        have h2 := ih (j0 + 1) _ pool h jj2 t hjj hb
        have harith : j0 + 1 + jj2 = j0 + (jj2 + 1) := by omega
        rwa [harith] at h2

theorem addTreatPool_sound (bad : Dict JLit) (i : Nat) (P : Nat × Nat → String → Prop) :
    ∀ (slots : List (Option String)) (j0 : Nat)
    (pool0 pool : List (String × List (Nat × Nat))),
    addTreatPool bad i slots j0 pool0 = .ok pool →
    PoolSound P pool0 →
    (∀ (jj : Nat) (t : String), slots[jj]? = some (some t) → P (i, j0 + jj) t) →
    PoolSound P pool := by
  intro slots
  induction slots with
  | nil =>
    intro j0 pool0 pool h hp _
    rw [addTreatPool] at h
    cases h
    exact hp
  | cons slot rest ih =>
    intro j0 pool0 pool h hp hkey
    have hrest : ∀ (jj : Nat) (t : String), rest[jj]? = some (some t) → P (i, j0 + 1 + jj) t := by
      intro jj t hjj
      have harith : j0 + 1 + jj = j0 + (jj + 1) := by omega
      rw [harith]
      exact hkey (jj + 1) t (by rw [List.getElem?_cons_succ]; exact hjj)
    match slot with
    | none =>
      rw [addTreatPool] at h
      exact Except.noConfusion h
    | some term =>
      rw [addTreatPool] at h
      refine ih (j0 + 1) _ pool h ?_ hrest
      by_cases hb : dmem bad term = true
      · rw [if_pos hb]
        refine poolSound_poolAdd P pool0 term (i, j0) hp ?_
        have := hkey 0 term (by rw [List.getElem?_cons_zero])
        rwa [Nat.add_zero] at this
      · rw [if_neg hb]
        exact hp

theorem buildTreatPool_mono (bad : Dict JLit) :
    ∀ (ps : List (Dict GVal × Dict SVal)) (i0 : Nat)
    (pool0 pool : List (String × List (Nat × Nat))),
    buildTreatPool bad ps i0 pool0 = .ok pool →
    ∀ (k : String) (y : Nat × Nat), y ∈ poolGet pool0 k → y ∈ poolGet pool k := by
  intro ps
  induction ps with
  | nil =>
    intro i0 pool0 pool h k y hy
    rw [buildTreatPool] at h
    cases h
    exact hy
  | cons p rest ih =>
    intro i0 pool0 pool h k y hy
    obtain ⟨g, og⟩ := p
    rw [buildTreatPool] at h
    match hres : addTreatPool bad i0
        (zipLongestTerms (treatTerms (dlookup og "treatment"))
          (gTreatLen (dlookup g "treatment"))) 0 pool0 with
    | .error e =>
      rw [hres] at h
      exact Except.noConfusion h
    | .ok pool2 =>
      rw [hres] at h
      exact ih (i0 + 1) pool2 pool h k y
        (addTreatPool_mono bad i0 _ 0 pool0 pool2 hres k y hy)

theorem buildTreatPool_complete (bad : Dict JLit) :
    ∀ (ps : List (Dict GVal × Dict SVal)) (i0 : Nat)
    (pool0 pool : List (String × List (Nat × Nat))),
    buildTreatPool bad ps i0 pool0 = .ok pool →
    ∀ (k : Nat) (g : Dict GVal) (og : Dict SVal), ps[k]? = some (g, og) →
    ∀ (jj : Nat) (t : String),
    (zipLongestTerms (treatTerms (dlookup og "treatment"))
      (gTreatLen (dlookup g "treatment")))[jj]? = some (some t) →
    dmem bad t = true → (i0 + k, jj) ∈ poolGet pool t := by
  intro ps
  induction ps with
  | nil =>
    intro i0 pool0 pool _ k g og hk
    simp at hk
  | cons p rest ih =>
    intro i0 pool0 pool h k g og hk jj t hjj hb
    obtain ⟨g0, og0⟩ := p
    rw [buildTreatPool] at h
    match hres : addTreatPool bad i0
        (zipLongestTerms (treatTerms (dlookup og0 "treatment"))
          (gTreatLen (dlookup g0 "treatment"))) 0 pool0 with
    | .error e =>
      rw [hres] at h
      exact Except.noConfusion h
    | .ok pool2 =>
      rw [hres] at h
      match k with
      | 0 =>
        rw [List.getElem?_cons_zero] at hk
        injection hk with hk
        cases hk
        have h2 := addTreatPool_complete bad i0 _ 0 pool0 pool2 hres jj t hjj hb
        rw [Nat.zero_add] at h2
        have h3 := buildTreatPool_mono bad rest (i0 + 1) pool2 pool h t (i0, jj) h2
        rwa [Nat.add_zero]
      | k2 + 1 =>
        rw [List.getElem?_cons_succ] at hk
        have h2 := ih (i0 + 1) pool2 pool h k2 g og hk jj t hjj hb
        have harith : i0 + 1 + k2 = i0 + (k2 + 1) := by omega
        rwa [harith] at h2

theorem buildTreatPool_sound (bad : Dict JLit) (P : Nat × Nat → String → Prop) :
    ∀ (ps : List (Dict GVal × Dict SVal)) (i0 : Nat)
    (pool0 pool : List (String × List (Nat × Nat))),
    buildTreatPool bad ps i0 pool0 = .ok pool →
    PoolSound P pool0 →
    (∀ (k : Nat) (g : Dict GVal) (og : Dict SVal), ps[k]? = some (g, og) →
      ∀ (jj : Nat) (t : String),
      (zipLongestTerms (treatTerms (dlookup og "treatment"))
        (gTreatLen (dlookup g "treatment")))[jj]? = some (some t) →
      P (i0 + k, jj) t) →
    PoolSound P pool := by
  intro ps
  induction ps with
  | nil =>
    intro i0 pool0 pool h hp _
    rw [buildTreatPool] at h
    cases h
    exact hp
  | cons p rest ih =>
    intro i0 pool0 pool h hp hkey
    obtain ⟨g0, og0⟩ := p
    rw [buildTreatPool] at h
    match hres : addTreatPool bad i0
        (zipLongestTerms (treatTerms (dlookup og0 "treatment"))
          (gTreatLen (dlookup g0 "treatment"))) 0 pool0 with
    | .error e =>
      rw [hres] at h
      exact Except.noConfusion h
    | .ok pool2 =>
      rw [hres] at h
      have hp2 : PoolSound P pool2 := by
        refine addTreatPool_sound bad i0 P _ 0 pool0 pool2 hres hp ?_
        intro jj t hjj
        have h4 := hkey 0 g0 og0 (by rw [List.getElem?_cons_zero]) jj t hjj
        rw [Nat.add_zero] at h4
        rw [Nat.zero_add]
        exact h4
      refine ih (i0 + 1) pool2 pool h hp2 ?_
      intro k g og hk jj t hjj
      have harith : i0 + 1 + k = i0 + (k + 1) := by omega
      rw [harith]
      exact hkey (k + 1) g og (by rw [List.getElem?_cons_succ]; exact hk) jj t hjj

theorem runTissue_keeps_treatOf (op : String → String) :
    ∀ (pool : List (String × List Nat)) (cs : Dict String)
    (data : List (Dict GVal)) (i : Nat),
    treatOf (runTissueCorrections op pool cs data).2 i = treatOf data i := by
  intro pool
  induction pool with
  | nil => intro cs data i; rfl
  | cons e rest ih =>
    intro cs data i
    obtain ⟨orig, lst⟩ := e
    rw [runTissueCorrections]
    by_cases hemp : pyStrip (op orig) = ""
    · rw [if_pos hemp]
      exact ih cs data i
    · rw [if_neg hemp]
      rw [ih _ _ i, applyTissueList_treatOf]

/-- A tissue occurrence of a raw label X at pair index i of the batch:
the original sample has the scalar tissue value X and the aligned
grounding carries some tissue value. -/
def occTissue (gd : List (Dict GVal)) (sd : List (Dict SVal)) (i : Nat)
    (X : String) : Bool :=
  match sd[i]?, gd[i]? with
  | some og, some g =>
    decide (dlookup og "tissue" = some (SVal.s X)) && (dlookup g "tissue").isSome
  | _, _ => false

/-- A treatment occurrence of a raw label X at position j of pair i: the
sample treatment list holds X at j and the aligned grounding treatment is
a term-record list with an element at j. -/
def occTreat (gd : List (Dict GVal)) (sd : List (Dict SVal)) (i j : Nat)
    (X : String) : Bool :=
  match sd[i]?, gd[i]? with
  | some og, some g =>
    (match dlookup og "treatment" with
     | some (.l ts) => decide (ts[j]? = some X)
     | _ => false) &&
    (match dlookup g "treatment" with
     | some (.gld es) => decide (j < es.length)
     | _ => false)
  | _, _ => false

theorem occTissue_spec (gd : List (Dict GVal)) (sd : List (Dict SVal)) (i : Nat)
    (X : String) (hocc : occTissue gd sd i X = true) :
    ∃ og g, sd[i]? = some og ∧ gd[i]? = some g ∧
      dlookup og "tissue" = some (SVal.s X) ∧ (dlookup g "tissue").isSome = true := by
  match hsd : sd[i]? with
  | none => simp [occTissue, hsd] at hocc
  | some og =>
    match hgd : gd[i]? with
    | none => simp [occTissue, hsd, hgd] at hocc
    | some g =>
      have h2 : (decide (dlookup og "tissue" = some (SVal.s X)) &&
          (dlookup g "tissue").isSome) = true := by
        simpa [occTissue, hsd, hgd] using hocc
      rw [Bool.and_eq_true, decide_eq_true_eq] at h2
      exact ⟨og, g, rfl, rfl, h2.1, h2.2⟩

theorem occTreat_spec (gd : List (Dict GVal)) (sd : List (Dict SVal)) (i j : Nat)
    (X : String) (hocc : occTreat gd sd i j X = true) :
    ∃ og g ts es, sd[i]? = some og ∧ gd[i]? = some g ∧
      dlookup og "treatment" = some (SVal.l ts) ∧ ts[j]? = some X ∧
      dlookup g "treatment" = some (GVal.gld es) ∧ j < es.length := by
  match hsd : sd[i]? with
  | none => simp [occTreat, hsd] at hocc
  | some og =>
    match hgd : gd[i]? with
    | none => simp [occTreat, hsd, hgd] at hocc
    | some g =>
      have h2 : ((match dlookup og "treatment" with
          | some (.l ts) => decide (ts[j]? = some X)
          | _ => false) &&
          (match dlookup g "treatment" with
          | some (.gld es) => decide (j < es.length)
          | _ => false)) = true := by
        simpa [occTreat, hsd, hgd] using hocc
      rw [Bool.and_eq_true] at h2
      obtain ⟨h3, h4⟩ := h2
      match hot : dlookup og "treatment" with
      | some (.l ts) =>
        rw [hot] at h3
        have h5 : ts[j]? = some X := by simpa using h3
        match hgt : dlookup g "treatment" with
        | some (.gld es) =>
          rw [hgt] at h4
          have h6 : j < es.length := by simpa using h4
          exact ⟨og, g, ts, es, rfl, rfl, hot, h5, hgt, h6⟩
        | some (.gd t) => simp [hgt] at h4
        | some (.gs x) => simp [hgt] at h4
        | some (.gls xs) => simp [hgt] at h4
        | none => simp [hgt] at h4
      | some (.s x) => simp [hot] at h3
      | none => simp [hot] at h3

theorem occTissue_pool (bad : Dict JLit) (gd : List (Dict GVal)) (sd : List (Dict SVal))
    (tpool : List (String × List Nat)) (X : String) (i : Nat)
    (htp : buildTissuePool bad (List.zip gd sd) 0 [] = .ok tpool)
    (hbad : dmem bad X = true) (hocc : occTissue gd sd i X = true) :
    i ∈ poolGet tpool X := by
  obtain ⟨og, g, hsd, hgd, hot, _⟩ := occTissue_spec gd sd i X hocc
  have hzip := zip_get_of_get gd sd i g og hgd hsd
  have htkey : tkey og = some X := by rw [tkey, hot]
  have h2 := buildTissuePool_complete bad (List.zip gd sd) 0 [] tpool htp i g og X hzip htkey hbad
  rwa [Nat.zero_add] at h2

theorem occTreat_pool (bad : Dict JLit) (gd : List (Dict GVal)) (sd : List (Dict SVal))
    (trpool : List (String × List (Nat × Nat))) (X : String) (i j : Nat)
    (htr : buildTreatPool bad (List.zip gd sd) 0 [] = .ok trpool)
    (hbad : dmem bad X = true) (hocc : occTreat gd sd i j X = true) :
    (i, j) ∈ poolGet trpool X := by
  obtain ⟨og, g, ts, es, hsd, hgd, hot, hts, hgt, hlt⟩ := occTreat_spec gd sd i j X hocc
  have hzip := zip_get_of_get gd sd i g og hgd hsd
  have hj : j < ts.length := by
    by_contra hj2
    rw [List.getElem?_eq_none_iff.mpr (le_of_not_lt hj2)] at hts
    exact Option.noConfusion hts
  have hslot : (zipLongestTerms ts (gTreatLen (dlookup g "treatment")))[j]? =
      some (some X) := by
    rw [zipLongestTerms_get ts _ j hj, hts]
  have h2 := buildTreatPool_complete bad (List.zip gd sd) 0 [] trpool htr i g og hzip
    j X (by rw [hot]; exact hslot) hbad
  rwa [Nat.zero_add] at h2

/-- C8: for every batch, cache and operator, when a raw label X keyed in
map_bad occurs as a tissue value or a treatment element any number of
times across the batch and the operator supplies one non-empty corrected
label for X, every such grounding occurrence in the corrected copy
returned by manual_correction carries that identical corrected label. -/
theorem C8_pooled_correction (lm : LabelMap) (op : String → String)
    (gd : List (Dict GVal)) (sd : List (Dict SVal)) (X Y : String)
    (cs : CorrectionSet) (cd : List (Dict GVal))
    (hbad : dmem lm.map_bad X = true)
    (hY : pyStrip (op X) = Y) (hYne : Y ≠ "")
    (hok : manual_correction lm op gd sd = .ok (cs, cd)) :
    ∀ i : Nat,
      (occTissue gd sd i X = true → hasTissueLabel cd i Y = true) ∧
      (∀ j : Nat, occTreat gd sd i j X = true → hasTreatLabel cd i j Y = true) := by
  intro i
  simp only [manual_correction] at hok
  match htp : buildTissuePool lm.map_bad (List.zip gd sd) 0 [] with
  | .error e =>
    rw [htp] at hok
    exact Except.noConfusion hok
  | .ok tpool =>
    rw [htp] at hok
    match htr : buildTreatPool lm.map_bad (List.zip gd sd) 0 [] with
    | .error e =>
      rw [htr] at hok
      exact Except.noConfusion hok
    | .ok trpool =>
      rw [htr] at hok
      have hok2 : (if tpool = [] ∧ trpool = [] then
          (Except.ok ((⟨[], []⟩ : CorrectionSet), gd) :
            Except Unit (CorrectionSet × List (Dict GVal)))
        else .ok (⟨(runTissueCorrections op tpool [] gd).1,
            (runTreatCorrections op trpool [] (runTissueCorrections op tpool [] gd).2).1⟩,
          (runTreatCorrections op trpool [] (runTissueCorrections op tpool [] gd).2).2)) =
          .ok (cs, cd) := hok
      by_cases hempty : tpool = [] ∧ trpool = []
      · constructor
        · intro hocc
          have hmem := occTissue_pool lm.map_bad gd sd tpool X i htp hbad hocc
          rw [hempty.1] at hmem
          exact absurd hmem (List.not_mem_nil i)
        · intro j hocc
          have hmem := occTreat_pool lm.map_bad gd sd trpool X i j htr hbad hocc
          rw [hempty.2] at hmem
          exact absurd hmem (List.not_mem_nil (i, j))
      · rw [if_neg hempty] at hok2
        injection hok2 with hok3
        injection hok3 with hcs hcd
        subst hcd
        have hsoundT : PoolSound (fun i1 k =>
            (match (List.zip gd sd)[i1]? with
             | some p => tkey p.2
             | none => none) = some k) tpool := by
          refine buildTissuePool_sound lm.map_bad _ (List.zip gd sd) 0 [] tpool htp
            (poolSound_nil _) ?_
          intro k g og t hk htk
          simp only [Nat.zero_add, hk]
          exact htk
        have hsoundTr : PoolSound (fun p k =>
            (match (List.zip gd sd)[p.1]? with
             | some q => (treatTerms (dlookup q.2 "treatment"))[p.2]?
             | none => none) = some k) trpool := by
          refine buildTreatPool_sound lm.map_bad _ (List.zip gd sd) 0 [] trpool htr
            (poolSound_nil _) ?_
          intro k g og hk jj t hjj
          simp only [Nat.zero_add, hk]
          exact zipLongestTerms_get_inv _ _ jj (some t) hjj
        constructor
        · intro hocc
          obtain ⟨og, g, hsd, hgd, hot, hpres⟩ := occTissue_spec gd sd i X hocc
          have hmem := occTissue_pool lm.map_bad gd sd tpool X i htp hbad hocc
          have hkey : (match (List.zip gd sd)[i]? with
              | some p => tkey p.2
              | none => none) = some X := by
            rw [zip_get_of_get gd sd i g og hgd hsd]
            simp [tkey, hot]
          have hpres2 : tissuePresent gd i = true := by
            simp [tissuePresent, tissueOf, hgd, hpres]
          have hd1 := runTissue_sets op X Y (fun i1 =>
              match (List.zip gd sd)[i1]? with
              | some p => tkey p.2
              | none => none) hY hYne tpool [] gd i hsoundT hkey (Or.inl ⟨hmem, hpres2⟩)
          exact runTreat_keeps_tissueLabel op trpool [] _ i Y hd1
        · intro j hocc
          obtain ⟨og, g, ts, es, hsd, hgd, hot, hts, hgt, hlt⟩ :=
            occTreat_spec gd sd i j X hocc
          have hmem := occTreat_pool lm.map_bad gd sd trpool X i j htr hbad hocc
          have hkey : (match (List.zip gd sd)[i]? with
              | some q => (treatTerms (dlookup q.2 "treatment"))[j]?
              | none => none) = some X := by
            rw [zip_get_of_get gd sd i g og hgd hsd]
            simp [treatTerms, hot, hts]
          have hslot : treatSlot gd i j = true := by
            simp [treatSlot, treatOf, hgd, hgt, hlt]
          have hslot1 : treatSlot (runTissueCorrections op tpool [] gd).2 i j = true := by
            rw [treatSlot_congr _ gd i j (runTissue_keeps_treatOf op tpool [] gd i)]
            exact hslot
          exact runTreat_sets op X Y (fun p =>
              match (List.zip gd sd)[p.1]? with
              | some q => (treatTerms (dlookup q.2 "treatment"))[p.2]?
              | none => none) hY hYne trpool [] _ i j hsoundTr hkey
            (Or.inl ⟨hmem, hslot1⟩)

/-- Concrete cache for the C8 witness: heat is flagged bad. -/
def mcWitnessLM : LabelMap := ⟨[], [("heat", JLit.jstr "EO:1")], []⟩

/-- Concrete operator for the C8 witness: corrects heat to warm with
surrounding whitespace, skips everything else. -/
def mcWitnessOp : String → String := fun x => if x = "heat" then " warm " else ""

/-- Concrete grounded batch for the C8 witness. -/
def mcWitnessGd : List (Dict GVal) :=
  [[("tissue", GVal.gd [("uniq_id", JLit.jstr "a"), ("label", JLit.jstr "x")]),
    ("treatment", GVal.gld [[("label", JLit.jstr "h")], [("label", JLit.jstr "s")]])],
   [("treatment", GVal.gld [[("label", JLit.jstr "c2")], [("label", JLit.jstr "h2")]])]]

/-- Concrete sample batch for the C8 witness: heat occurs as the tissue
of pair 0, as treatment element 0 of pair 0 and as treatment element 1 of
pair 1. -/
def mcWitnessSd : List (Dict SVal) :=
  [[("tissue", SVal.s "heat"), ("treatment", SVal.l ["heat", "salt"])],
   [("treatment", SVal.l ["cold", "heat"])]]

/-- Corrected batch the C8 witness run returns. -/
def mcWitnessCd : List (Dict GVal) :=
  [[("tissue", GVal.gd [("uniq_id", JLit.jstr "a"), ("label", JLit.jstr "warm")]),
    ("treatment", GVal.gld [[("label", JLit.jstr "warm")], [("label", JLit.jstr "s")]])],
   [("treatment", GVal.gld [[("label", JLit.jstr "c2")], [("label", JLit.jstr "warm")]])]]

/-- Witness for C8 at a concrete run: all three occurrences of the bad
label heat receive the identical corrected label warm. -/
theorem C8_pooled_correction_witness :
    hasTissueLabel mcWitnessCd 0 "warm" = true ∧
    hasTreatLabel mcWitnessCd 0 0 "warm" = true ∧
    hasTreatLabel mcWitnessCd 1 1 "warm" = true :=
  ⟨(C8_pooled_correction mcWitnessLM mcWitnessOp mcWitnessGd mcWitnessSd "heat" "warm"
      ⟨[("heat", "warm")], [("heat", "warm")]⟩ mcWitnessCd rfl (by decide) (by decide) rfl
      0).1 rfl,
   (C8_pooled_correction mcWitnessLM mcWitnessOp mcWitnessGd mcWitnessSd "heat" "warm"
      ⟨[("heat", "warm")], [("heat", "warm")]⟩ mcWitnessCd rfl (by decide) (by decide) rfl
      0).2 0 rfl,
   (C8_pooled_correction mcWitnessLM mcWitnessOp mcWitnessGd mcWitnessSd "heat" "warm"
      ⟨[("heat", "warm")], [("heat", "warm")]⟩ mcWitnessCd rfl (by decide) (by decide) rfl
      1).2 1 rfl⟩
